import Mathlib

/-!
# t-search: the tweet import batch (`appengine/batch/app.go`)

A shallow embedding of the batch job that fetches one day of tweets and
writes them to the search index in chunks of 200, with the properties its
specification states about it.

Conventions of the embedding.

* A Go `[]T` is a `List T`, and a Go `string` / `[]byte` a `List Char` where the
  code inspects its characters (the timestamp decoder) and a `String` where
  it only carries it (record fields).
* A Go `int` is an `Int`. The only arithmetic on `int` in the file is
  `i + n` in `chunks`, with `0 ≤ i < len(l)` and, as soon as `i > 0`,
  `n ≤ i`; a slice of 88-byte `Tweet` values has fewer than `2^57` elements,
  so the sum never leaves the 64-bit range and no wrap-around is modelled.
* The channel returned by `chunks` is the list of values sent on it before it
  is closed, together with how the producing goroutine ended.
* The search index and the HTTP client are collaborators outside the file;
  the index is a parameter of `put` (a state type and a `PutMulti` function),
  the client and the JSON decoder are parameters of `fetch`.
* `time.Parse`, `Time.AddDate` and `Time.Format` come from the Go standard
  library (`time/format.go`, `time/time.go`, `time/zoneinfo.go`); they are
  embedded for the two layouts the file uses, `"2006-01-02 15:04:05"` and
  `"20060102"`. A location is its table of offset transitions; `time.Now()`
  is in `time.Local`, which is whatever location the process runs in.
-/

namespace Batch

/-! ## Data model -/

/-- A `*time.Location`: the offset, in seconds east of UTC, in effect before
the first transition, and the transitions in ascending order of time, each
the instant (seconds since 1970-01-01T00:00:00Z) from which an offset holds
and that offset. The rule that extends a table into the future is not part
of it: a table stands for the location as far as it reaches. -/
structure Location where
  first : Int
  tx : List (Int × Int)
  deriving DecidableEq, Repr

/-- Go `time.UTC`. -/
def UTC : Location := ⟨0, []⟩

/-- Go `alpha`, the beginning of time for `Location.lookup`. -/
def alpha : Int := -(2 ^ 63)

/-- Go `omega`, the end of time for `Location.lookup`. -/
def omega : Int := 2 ^ 63 - 1

/-- The search of Go `Location.lookup` through the transitions still ahead,
`cur` being the offset in effect so far, since when, and until when. -/
def lookupFrom : List (Int × Int) → Int → Int × Int × Int → Int × Int × Int
  | [], _, cur => cur
  | (w, o) :: rest, sec, (off, start, _) =>
    if sec < w then (off, start, w) else lookupFrom rest sec (o, w, omega)

/-- Go `Location.lookup`: the offset in effect at instant `sec`, and the
instants from which and until which that offset holds. -/
def Location.lookup (l : Location) (sec : Int) : Int × Int × Int :=
  lookupFrom l.tx sec (l.first, alpha, omega)

/-- A `time.Time`: the instant as seconds since 1970-01-01T00:00:00Z plus the
nanosecond within that second, and the location it is displayed in. -/
structure Time where
  unix : Int
  nsec : Int
  loc : Location
  deriving DecidableEq, Repr

/-- Source: `type DueDate time.Time`. -/
abbrev DueDate := Time

/-- Source: `type Tweet struct`. `MediaURL` is a `*string`: `none` is the nil
pointer. -/
structure Tweet where
  ID : String
  CreatedAt : DueDate
  UserName : String
  Text : String
  RetweetCount : Int
  MediaURL : Option String
  deriving DecidableEq, Repr

/-! ## `chunks` -/

/-- How the goroutine started by `chunks` ended, with the chunks it sent on
the channel up to that point, in order.
`closed`: the loop ran to its end and the channel was closed.
`panicked`: a slice expression was out of range.
`running`: the loop was still going when the step budget ran out. -/
inductive Produced where
  | closed (sent : List (List Tweet))
  | panicked (sent : List (List Tweet))
  | running (sent : List (List Tweet))
  deriving DecidableEq, Repr

/-- The Go slice expression `l[from:to]` (here `frm`, `upto`), which panics
unless `0 ≤ from ≤ to ≤ cap(l)`; `chunks` only evaluates it with
`to ≤ len(l)`. -/
def slice (l : List Tweet) (frm upto : Int) : Option (List Tweet) :=
  if 0 ≤ frm ∧ frm ≤ upto ∧ upto ≤ l.length then
    some ((l.take upto.toNat).drop frm.toNat)
  else none

/-- The loop `for i := 0; i < len(l); i += n { ... ch <- l[from:to] }` of
`chunks`, started at index `i` with `sent` already on the channel. The first
argument bounds the number of loop tests. -/
def chunksLoop (l : List Tweet) (n : Int) : Nat → Int → List (List Tweet) → Produced
  | 0, _, sent => Produced.running sent
  | fuel + 1, i, sent =>
    if i < l.length then
      let frm := i
      let upto := if i + n > l.length then (l.length : Int) else i + n
      match slice l frm upto with
      | some c => chunksLoop l n fuel (i + n) (sent ++ [c])
      | none => Produced.panicked sent
    else Produced.closed sent

/-- Source: `func chunks(l []Tweet, n int) chan []Tweet`. With `len(l) + 1`
loop tests the loop has ended whenever `n > 0`. -/
def chunks (l : List Tweet) (n : Int) : Produced :=
  chunksLoop l n (l.length + 1) 0 []

/-! ## Errors -/

/-- Why `time.Parse` rejected its input (the `Message` and `LayoutElem` of a
`*time.ParseError`; its copies of the layout and of the input are left out).
`bad elem`: the input does not match layout element `elem`.
`outOfRange field`: a numeric field is outside its range.
`extraText`: input is left over after the layout is used up.
`dayOutOfRange`: the day does not exist in that month. -/
inductive ParseError where
  | bad (elem : String)
  | outOfRange (field : String)
  | extraText
  | dayOutOfRange
  deriving DecidableEq, Repr

/-- A Go `error` value as far as the file distinguishes them. `withStack` is
`errors.WithStack` of `github.com/pkg/errors`, which wraps its argument;
`invalidIndexName name` is the error of `search.Open`,
`fmt.Errorf("search: invalid index name %q", name)`. -/
inductive GoError where
  | parse (e : ParseError)
  | other (msg : String)
  | invalidIndexName (name : String)
  | withStack (cause : GoError)
  deriving DecidableEq, Repr

/-! ## Calendar (Go `time` package) -/

/-- Go `isLeap`. -/
def isLeap (year : Int) : Bool :=
  year % 4 == 0 && (year % 100 != 0 || year % 400 == 0)

/-- Go `daysBefore[m]`: days in a non-leap year before month `m + 1`. -/
def daysBefore (m : Int) : Int :=
  [0, 31, 59, 90, 120, 151, 181, 212, 243, 273, 304, 334, 365].getD m.toNat 0

/-- Go `daysIn`. -/
def daysIn (m : Int) (year : Int) : Int :=
  if m == 2 && isLeap year then 29 else daysBefore m - daysBefore (m - 1)

/-- Go `norm`: `(nhi, nlo)` with `hi * base + lo = nhi * base + nlo` and
`0 ≤ nlo < base`. -/
def norm (hi lo base : Int) : Int × Int :=
  let (hi, lo) :=
    if lo < 0 then
      let n := (-lo - 1) / base + 1
      (hi - n, lo + n * base)
    else (hi, lo)
  if lo ≥ base then
    let n := lo / base
    (hi + n, lo - n * base)
  else (hi, lo)

/-- Go `daysSinceEpoch`, counted from 0001-01-01. Go counts from January 1 of
its absolute zero year, which is `1` modulo `400`, so the cycles are the
same; the divisions are floor divisions. -/
def daysSinceEpoch (year : Int) : Int :=
  let y := year - 1
  let n := y / 400
  let y := y - 400 * n
  let d := 146097 * n
  let n := y / 100
  let y := y - 100 * n
  let d := d + 36524 * n
  let n := y / 4
  let y := y - 4 * n
  let d := d + 1461 * n
  let n := y
  d + 365 * n

/-- Seconds from 0001-01-01T00:00:00Z to 1970-01-01T00:00:00Z. -/
def unixToAbsolute : Int := 62135596800

/-- The end of Go `time.Date`: from the seconds `unix` that the wall clock
would show in UTC to the instant in `loc`. The offset is looked up at `unix`
itself; when the instant it gives lies outside the period of that offset,
the offset is looked up again at that instant. -/
def zoneAdjust (loc : Location) (unix : Int) : Int :=
  let (offset, start, fin) := loc.lookup unix
  if offset ≠ 0 then
    let utc := unix - offset
    let offset := if utc < start ∨ utc ≥ fin then (loc.lookup utc).1 else offset
    unix - offset
  else unix

/-- Go `time.Date`. -/
def Date (year month day hour min sec nsec : Int) (loc : Location) : Time :=
  let m := month - 1
  let (year, m) := norm year m 12
  let month := m + 1
  let (sec, nsec) := norm sec nsec 1000000000
  let (min, sec) := norm min sec 60
  let (hour, min) := norm hour min 60
  let (day, hour) := norm day hour 24
  let d := daysSinceEpoch year
  let d := d + daysBefore (month - 1)
  let d := if isLeap year && month ≥ 3 then d + 1 else d
  let d := d + (day - 1)
  let abs := d * 86400
  let abs := abs + (hour * 3600 + min * 60 + sec)
  let unix := abs - unixToAbsolute
  ⟨zoneAdjust loc unix, nsec, loc⟩

/-- Go `Time.abs`: seconds since 0001-01-01T00:00:00 on the clock of the
time's location. -/
def Time.abs (t : Time) : Int :=
  t.unix + (t.loc.lookup t.unix).1 + unixToAbsolute

/-- Go `absDate` with `full = false`, on the number of days since
0001-01-01: the year and the day within the year, from `0`. -/
def absYearDay (d : Int) : Int × Int :=
  let n := d / 146097
  let y := 400 * n
  let d := d - 146097 * n
  let n := d / 36524
  let n := n - n / 4
  let y := y + 100 * n
  let d := d - 36524 * n
  let n := d / 1461
  let y := y + 4 * n
  let d := d - 1461 * n
  let n := d / 365
  let n := n - n / 4
  let y := y + n
  let d := d - 365 * n
  (y + 1, d)

/-- The rest of Go `absDate` (`full = true`): month and day of the month of
day `yday` of a year that is a leap year or not (`fin` is Go's `end`). -/
def monthDay (leap : Bool) (yday : Int) : Int × Int :=
  let day := yday
  if leap && day == 31 + 29 - 1 then (2, 29)
  else
    let day := if leap && day > 31 + 29 - 1 then day - 1 else day
    let month := day / 31
    let fin := daysBefore (month + 1)
    let (month, begin) := if day ≥ fin then (month + 1, fin) else (month, daysBefore month)
    (month + 1, day - begin + 1)

/-- Go `absDate` with `full = true`: year, month and day of the month. -/
def absDate (d : Int) : Int × Int × Int :=
  let (year, yday) := absYearDay d
  let (month, day) := monthDay (isLeap year) yday
  (year, month, day)

/-- Go `Time.Date`. -/
def Time.date (t : Time) : Int × Int × Int :=
  absDate (t.abs / 86400)

/-- Go `Time.Clock`. -/
def Time.clock (t : Time) : Int × Int × Int :=
  let sec := t.abs % 86400
  let hour := sec / 3600
  let sec := sec - hour * 3600
  let min := sec / 60
  let sec := sec - min * 60
  (hour, min, sec)

/-- Go `Time.AddDate`. -/
def Time.AddDate (t : Time) (years months days : Int) : Time :=
  let (year, month, day) := t.date
  let (hour, min, sec) := t.clock
  Date (year + years) (month + months) (day + days) hour min sec t.nsec t.loc

/-! ## Formatting with layout `"20060102"` -/

/-- The character of a decimal digit. -/
def digitChar (d : Nat) : Char :=
  Char.ofNat (48 + d % 10)

/-- Decimal digits of `u`, most significant first; the first argument bounds
the number of digits. -/
def decimal : Nat → Nat → List Char
  | 0, _ => []
  | fuel + 1, u => if u < 10 then [digitChar u] else decimal fuel (u / 10) ++ [digitChar u]

/-- Go `appendInt`: `x` in decimal, zero-padded to at least `width` digits,
after a minus sign when negative. -/
def appendInt (x : Int) (width : Nat) : List Char :=
  let u := x.natAbs
  let ds := decimal (u + 1) u
  (if x < 0 then ['-'] else []) ++ List.replicate (width - ds.length) '0' ++ ds

/-- Go `Time.Format` with the layout `"20060102"`: the elements `2006`
(year, four digits), `01` (month, two digits), `02` (day, two digits). -/
def Time.Format (t : Time) : List Char :=
  let (year, month, day) := t.date
  appendInt year 4 ++ appendInt month 2 ++ appendInt day 2

/-! ## Parsing with layout `"2006-01-02 15:04:05"` -/

/-- Whether `c` is an ASCII decimal digit. -/
def isDigitChar (c : Char) : Bool :=
  '0' ≤ c && c ≤ '9'

/-- The value of the digit `c`. -/
def digitVal (c : Char) : Int :=
  (c.toNat : Int) - 48

/-- Go `getnum`: a number of one or two digits at the head of `s`; with
`fixed` it must have two. -/
def getnum (s : List Char) (fixed : Bool) : Option (Int × List Char) :=
  match s with
  | [] => none
  | c0 :: s1 =>
    if !isDigitChar c0 then none
    else
      match s1 with
      | [] => if fixed then none else some (digitVal c0, s1)
      | c1 :: s2 =>
        if !isDigitChar c1 then
          if fixed then none else some (digitVal c0, s1)
        else some (digitVal c0 * 10 + digitVal c1, s2)

/-- Go `leadingInt`, without its overflow test (it is called on at most nine
characters here): the number spelled by the leading digits, from `x`, and
what follows them. -/
def leadingInt : List Char → Int → Int × List Char
  | [], x => (x, [])
  | c :: rest, x =>
    if isDigitChar c then leadingInt rest (x * 10 + digitVal c) else (x, c :: rest)

/-- Go `atoi`. -/
def atoi (s : List Char) : Option Int :=
  let (neg, s) :=
    match s with
    | '-' :: r => (true, r)
    | '+' :: r => (false, r)
    | _ => (false, s)
  let (q, rem) := leadingInt s 0
  if rem ≠ [] then none else some (if neg then -q else q)

/-- Go `cutspace`. -/
def cutspace (s : List Char) : List Char :=
  s.dropWhile (fun c => c == ' ')

/-- Go `skip`: consume the literal text `lit` of the layout from `value`; a
space in the layout stands for any run of spaces in the value. -/
def skip : List Char → List Char → Option (List Char)
  | value, [] => some value
  | value, p :: lit =>
    if p == ' ' then
      match value with
      | v :: _ => if v != ' ' then none else skip (cutspace value) lit
      | [] => skip value lit
    else
      match value with
      | v :: rest => if v != p then none else skip rest lit
      | [] => none

/-- Go `commaOrPeriod`. -/
def commaOrPeriod (c : Char) : Bool :=
  c == '.' || c == ','

/-- Go `parseNanoseconds` on the first `nbytes` characters of `value`, a
separator followed by digits. -/
def parseNanoseconds (value : List Char) (nbytes : Nat) : Option Int :=
  match value with
  | [] => none
  | c :: _ =>
    if !commaOrPeriod c then none
    else
      let (value, nbytes) := if nbytes > 10 then (value.take 10, 10) else (value, nbytes)
      match atoi ((value.take nbytes).drop 1) with
      | none => none
      | some ns => some (ns * 10 ^ (10 - nbytes))

/-- The fraction of a second that `time.Parse` accepts after the seconds
although the layout has none: a separator and at least one digit. Gives the
nanoseconds and the rest of the value. -/
def fracSecond (value : List Char) : Except ParseError (Int × List Char) :=
  match value with
  | c :: d :: _ =>
    if commaOrPeriod c && isDigitChar d then
      let n := 2 + ((value.drop 2).takeWhile isDigitChar).length
      match parseNanoseconds value n with
      | none => Except.error (ParseError.bad "05")
      | some nsec => Except.ok (nsec, value.drop n)
    else Except.ok (0, value)
  | _ => Except.ok (0, value)

/-- Go `time.Parse("2006-01-02 15:04:05", value)`. The layout splits into the
elements `2006`, `-` `01`, `-` `02`, space `15`, `:` `04`, `:` `05`; they are
taken in turn, then the day is checked against the month, and the result is
in UTC. -/
def timeParse (value : List Char) : Except ParseError Time :=
  -- stdLongYear
  if value.length < 4 || !(value.head?.map isDigitChar).getD false then
    Except.error (ParseError.bad "2006")
  else
  match atoi (value.take 4) with
  | none => Except.error (ParseError.bad "2006")
  | some year =>
  let value := value.drop 4
  -- "-", stdZeroMonth
  match skip value ['-'] with
  | none => Except.error (ParseError.bad "-")
  | some value =>
  match getnum value true with
  | none => Except.error (ParseError.bad "01")
  | some (month, value) =>
  if month ≤ 0 || 12 < month then Except.error (ParseError.outOfRange "month") else
  -- "-", stdZeroDay
  match skip value ['-'] with
  | none => Except.error (ParseError.bad "-")
  | some value =>
  match getnum value true with
  | none => Except.error (ParseError.bad "02")
  | some (day, value) =>
  -- " ", stdHour
  match skip value [' '] with
  | none => Except.error (ParseError.bad " ")
  | some value =>
  match getnum value false with
  | none => Except.error (ParseError.bad "15")
  | some (hour, value) =>
  if hour < 0 || 24 ≤ hour then Except.error (ParseError.outOfRange "hour") else
  -- ":", stdZeroMinute
  match skip value [':'] with
  | none => Except.error (ParseError.bad ":")
  | some value =>
  match getnum value true with
  | none => Except.error (ParseError.bad "04")
  | some (min, value) =>
  if min < 0 || 60 ≤ min then Except.error (ParseError.outOfRange "minute") else
  -- ":", stdZeroSecond
  match skip value [':'] with
  | none => Except.error (ParseError.bad ":")
  | some value =>
  match getnum value true with
  | none => Except.error (ParseError.bad "05")
  | some (sec, value) =>
  if sec < 0 || 60 ≤ sec then Except.error (ParseError.outOfRange "second") else
  match fracSecond value with
  | Except.error e => Except.error e
  | Except.ok (nsec, value) =>
  -- end of the layout
  if value ≠ [] then Except.error ParseError.extraText else
  if day < 1 || day > daysIn month year then Except.error ParseError.dayOutOfRange else
  Except.ok (Date year month day hour min sec nsec UTC)

/-! ## `DueDate.UnmarshalJSON` -/

/-- Go `strings.Trim(s, cutset)` for a cutset of the one character `c`. -/
def stringsTrim (s : List Char) (c : Char) : List Char :=
  ((s.dropWhile (fun x => x == c)).reverse.dropWhile (fun x => x == c)).reverse

/-- Go `strings.Replace(s, old, new, -1)` for one-character `old` and `new`. -/
def stringsReplace (s : List Char) (old new : Char) : List Char :=
  s.map (fun x => if x == old then new else x)

/-- Source: `func (d *DueDate) UnmarshalJSON(raw []byte) error`. The result is
the error returned, or the value stored in `*d` when the error is nil. -/
def UnmarshalJSON (raw : List Char) : Except GoError DueDate :=
  let s := stringsTrim raw '"'
  let s := stringsReplace s '/' '-'
  match timeParse s with
  | Except.error err => Except.error (GoError.withStack (GoError.parse err))
  | Except.ok t => Except.ok t

/-! ## `fetch` -/

/-- Source: the constant `urlTmpl` of `fetch`. -/
def urlTmpl : List Char :=
  "https://raw.githubusercontent.com/t-analyzers/t-analyzers.github.io/master/data/tweets_%s.json".toList

/-- Go `fmt.Sprintf(tmpl, arg)` for a template whose only verb is one `%s`. -/
def sprintf : List Char → List Char → List Char
  | [], _ => []
  | '%' :: 's' :: rest, arg => arg ++ rest
  | c :: rest, arg => c :: sprintf rest arg

/-- The URL `fetch` computes when `time.Now()` is `now`, a time in
`time.Local`. -/
def fetchURL (now : Time) : List Char :=
  let yesterday := (now.AddDate 0 0 (-1)).Format
  sprintf urlTmpl yesterday

/-- Source: `func fetch(ctx context.Context) ([]Tweet, error)`, with the
clock reading `now`, the URL-fetch client `get` and the JSON decoder `decode`
as parameters. The first component is the URL requested. -/
def fetch {β : Type} (now : Time) (get : List Char → Except GoError β)
    (decode : β → Except GoError (List Tweet)) : List Char × Except GoError (List Tweet) :=
  let url := fetchURL now
  match get url with
  | Except.error err => (url, Except.error (GoError.withStack err))
  | Except.ok resp =>
    match decode resp with
    | Except.error err => (url, Except.error (GoError.withStack err))
    | Except.ok tweets => (url, Except.ok tweets)

/-! ## `put` -/

/-- Go conversion `float64(x)` of a 64-bit `int`: the nearest number with a
53-bit significand, a tie going to the even one. The result is a whole
number and is given as such. -/
def float64OfInt (x : Int) : Int :=
  let u := x.natAbs
  let e := ((List.range 12).find? (fun e => u < 2 ^ (53 + e))).getD 11
  let q := u / 2 ^ e
  let r := u % 2 ^ e
  let q := if 2 * r > 2 ^ e ∨ (2 * r = 2 ^ e ∧ q % 2 = 1) then q + 1 else q
  if x < 0 then -((q * 2 ^ e : Nat) : Int) else ((q * 2 ^ e : Nat) : Int)

/-- Source: the local `type Data struct` of `put`, the index document.
`RetweetCount` is a `float64`, here the whole number it holds. -/
structure Data where
  ID : String
  CreatedAt : Time
  UserName : String
  Text : String
  RetweetCount : Int
  MediaURL : String
  deriving DecidableEq, Repr

/-- The `*search.Index` handle returned by `search.Open`. -/
structure Index where
  name : String
  deriving DecidableEq, Repr

/-- Package `google.golang.org/appengine/search`, `validIndexNameOrDocID`:
printable ASCII without spaces, not starting with `!`. -/
def validIndexNameOrDocID (s : String) : Bool :=
  match s.toList with
  | '!' :: _ => false
  | cs => cs.all (fun c => !(c.toNat < 0x21 || 0x7f ≤ c.toNat))

/-- Package `google.golang.org/appengine/search`, `Open`: it only checks the
name. -/
def searchOpen (name : String) : Except GoError Index :=
  if !validIndexNameOrDocID name then
    Except.error (GoError.invalidIndexName name)
  else Except.ok ⟨name⟩

/-- The search service: a state and what `index.PutMulti(ctx, ids, srcs)`
does to it, returning the new state and the error (`none` is nil). -/
structure Search (σ : Type) where
  putMulti : σ → Index → List String → List Data → σ × Option GoError

/-- One invocation of `PutMulti`. -/
structure Call where
  index : Index
  ids : List String
  srcs : List Data
  deriving DecidableEq, Repr

/-- How a run of `put` ended. `returned err`: it returned `err` (`none` is nil).
`producerPanicked`, `producerRunning`: the goroutine of `chunks` panicked, or
never closed the channel. -/
inductive PutOutcome where
  | returned (err : Option GoError)
  | producerPanicked
  | producerRunning
  deriving DecidableEq, Repr

/-- A run of `put`: the state of the search service afterwards, the calls of
`PutMulti` made, in order, and how the run ended. -/
structure PutRun (σ : Type) where
  state : σ
  calls : List Call
  outcome : PutOutcome

/-- Source: the body of `for _, t := range tmp` in `put`, building one
document. -/
def mkData (t : Tweet) : Data :=
  let data : Data :=
    ⟨t.ID, t.CreatedAt, t.UserName, t.Text, float64OfInt t.RetweetCount, ""⟩
  match t.MediaURL with
  | some url => { data with MediaURL := url }
  | none => data

/-- Source: the loop `for _, t := range tmp` in `put`, appending to `ids`
and `srcs`. -/
def collect (tmp : List Tweet) : List String × List Data :=
  tmp.foldl (fun acc t => (acc.1 ++ [t.ID], acc.2 ++ [mkData t])) ([], [])

/-- Source: the loop `for tmp := range chunks(tweets, limit)` in `put`, over
the chunks still to be received. -/
def putLoop {σ : Type} (env : Search σ) (index : Index) :
    List (List Tweet) → σ → List Call → PutRun σ
  | [], s, calls => ⟨s, calls, PutOutcome.returned none⟩
  | tmp :: more, s, calls =>
    let (ids, srcs) := collect tmp
    match env.putMulti s index ids srcs with
    | (s, some err) =>
      ⟨s, calls ++ [⟨index, ids, srcs⟩], PutOutcome.returned (some (GoError.withStack err))⟩
    | (s, none) => putLoop env index more s (calls ++ [⟨index, ids, srcs⟩])

/-- Source: the constant `limit` of `put`. -/
def limit : Int := 200

/-- Source: `func put(ctx context.Context, tweets []Tweet) error`, run against
the search service `env` in state `s`. The producer of `chunks tweets limit`
always closes its channel, `limit` being positive, so the last two branches
are never taken. -/
def put {σ : Type} (env : Search σ) (s : σ) (tweets : List Tweet) : PutRun σ :=
  match searchOpen "tweets" with
  | Except.error err => ⟨s, [], PutOutcome.returned (some (GoError.withStack err))⟩
  | Except.ok index =>
    match chunks tweets limit with
    | Produced.closed cs => putLoop env index cs s []
    | Produced.panicked _ => ⟨s, [], PutOutcome.producerPanicked⟩
    | Produced.running _ => ⟨s, [], PutOutcome.producerRunning⟩

/-- Source: `func importTweets(ctx context.Context) error`: `fetch`, then
`put` of what was fetched. -/
def importTweets {σ β : Type} (env : Search σ) (s : σ) (now : Time)
    (get : List Char → Except GoError β) (decode : β → Except GoError (List Tweet)) :
    PutRun σ :=
  match (fetch now get decode).2 with
  | Except.error err => ⟨s, [], PutOutcome.returned (some err)⟩
  | Except.ok tweets => put env s tweets

/-! ## Vocabulary of the statements -/

/-- The call of `PutMulti` that a chunk gives rise to: the identifiers of its
records as keys and their documents, in the order of the chunk. -/
def callOf (index : Index) (c : List Tweet) : Call :=
  ⟨index, c.map (fun t => t.ID), c.map mkData⟩

/-- The state of the search service once `PutMulti` has been called for each
of the chunks `cs` in turn, from state `s`. -/
def stateAfter {σ : Type} (env : Search σ) (index : Index) (s : σ) (cs : List (List Tweet)) : σ :=
  cs.foldl (fun s c => (env.putMulti s index (c.map (fun t => t.ID)) (c.map mkData)).1) s

/-- The error that the call of `PutMulti` for chunk number `j` (from `0`)
returns when the calls for the chunks before it have been made in turn from
state `s`; `none` is nil. -/
def callError {σ : Type} (env : Search σ) (index : Index) (s : σ) (cs : List (List Tweet))
    (j : Nat) : Option GoError :=
  match cs[j]? with
  | none => none
  | some c =>
    (env.putMulti (stateAfter env index s (cs.take j)) index (c.map (fun t => t.ID))
      (c.map mkData)).2

/-- What `chunks` has still to send when its loop stands at index `k` of `l`
with chunk size `n`: the chunks `rest` make up the records from `k` on, they
are as many as the chunk size requires, all but the last are full, the last
holds the remainder, and none is empty or longer than `n`. -/
structure Remaining (l : List Tweet) (n k : Nat) (rest : List (List Tweet)) : Prop where
  flat : rest.flatten = l.drop k
  count : rest.length = (l.length - k + n - 1) / n
  full : ∀ c ∈ rest.dropLast, c.length = n
  last : ∀ c, rest.getLast? = some c →
    c.length = if (l.length - k) % n = 0 then n else (l.length - k) % n
  bounds : ∀ c ∈ rest, 0 < c.length ∧ c.length ≤ n

/-- The chunks a producer sent. -/
def Produced.sent : Produced → List (List Tweet)
  | Produced.closed cs => cs
  | Produced.panicked cs => cs
  | Produced.running cs => cs

/-- Whether `s` is spelled as the pattern `pat` says: a letter of the pattern
stands for one decimal digit, any other character for itself. -/
def matchesLayout : List Char → List Char → Bool
  | [], [] => true
  | p :: pat, c :: s => (if p.isAlpha then isDigitChar c else p == c) && matchesLayout pat s
  | _, _ => false

/-- The layout as the specification writes it: `YYYY-MM-DD HH:MM:SS`. -/
def strictShape (s : List Char) : Bool :=
  matchesLayout "YYYY-MM-DD HH:MM:SS".toList s

/-- A fraction of a second, or nothing: a period or comma and one or more
digits. -/
def fractionShape (s : List Char) : Bool :=
  match s with
  | [] => true
  | c :: d :: ds => commaOrPeriod c && isDigitChar d && ds.all isDigitChar
  | _ => false

/-- The spellings `time.Parse` takes for the layout: `YYYY-MM-DD`, one or
more spaces, the hour in one or two digits, `:MM:SS`, and possibly a
fraction of a second. -/
def lenientShape (s : List Char) : Bool :=
  matchesLayout "YYYY-MM-DD ".toList (s.take 11) &&
    (let rest := (s.drop 11).dropWhile (fun c => c == ' ')
     (matchesLayout "H:MM:SS".toList (rest.take 7) && fractionShape (rest.drop 7)) ||
     (matchesLayout "HH:MM:SS".toList (rest.take 8) && fractionShape (rest.drop 8)))

/-- A timestamp spelled with separator `sep` between year, month and day:
`YYYY`, `sep`, `MM`, `sep`, `DD`, a space, `HH:MM:SS`. -/
def spell (sep : Char) (year month day hour min sec : Int) : List Char :=
  appendInt year 4 ++ [sep] ++ appendInt month 2 ++ [sep] ++ appendInt day 2 ++ [' ']
    ++ appendInt hour 2 ++ [':'] ++ appendInt min 2 ++ [':'] ++ appendInt sec 2

/-- The index as a map from identifier to document. -/
abbrev IndexMap := String → Option Data

/-- A bulk upsert on the map: each document is stored under its key, in
order, replacing what the key held. -/
def upsert (m : IndexMap) (ids : List String) (srcs : List Data) : IndexMap :=
  (ids.zip srcs).foldl (fun m kv => Function.update m kv.1 (some kv.2)) m

/-- The search service whose state is such a map and whose `PutMulti` always
succeeds. -/
def mapSearch : Search IndexMap :=
  ⟨fun m _ ids srcs => (upsert m ids srcs, none)⟩

/-- A search service that counts the calls and fails the call number `k`
(from `0`) with `err`. -/
def failingAt (k : Nat) (err : GoError) : Search Nat :=
  ⟨fun n _ _ _ => (n + 1, if n = k then some err else none)⟩

/-- A list of `n` records with identifiers `"0"`, `"1"`, ... -/
def sampleTweets (n : Nat) : List Tweet :=
  (List.range n).map (fun i => ⟨toString i, ⟨0, 0, UTC⟩, "user", "text", 0, none⟩)

/-- The offset of a location at an instant. -/
def Location.offsetAt (l : Location) (sec : Int) : Int :=
  (l.lookup sec).1

/-- America/New_York around March 2024: UTC-5 until 2024-03-10T07:00:00Z,
UTC-4 from then on. -/
def newYork : Location := ⟨-18000, [(1710054000, -14400)]⟩

/-- America/Sao_Paulo around November 2018: UTC-3 until 2018-11-04T03:00:00Z,
UTC-2 from then on. -/
def saoPaulo : Location := ⟨-10800, [(1541300400, -7200)]⟩

/-! ## `chunks` -/

theorem slice_eq (l : List Tweet) (k m : Nat) (hkm : k ≤ m) (hm : m ≤ l.length) :
    slice l (k : Int) (m : Int) = some ((l.take m).drop k) := by
  unfold slice
  rw [if_pos ⟨by omega, by omega, by omega⟩]
  simp


theorem remaining_done (l : List Tweet) (n k : Nat) (hn : 0 < n) (hk : l.length ≤ k) :
    Remaining l n k [] := by
  refine ⟨?_, ?_, ?_, ?_, ?_⟩
  · simp [List.drop_eq_nil_of_le hk]
  · have h0 : l.length - k + n - 1 < n := by omega
    simp [Nat.div_eq_of_lt h0]
  · simp
  · simp
  · simp

theorem chunk_step (l : List Tweet) (n k : Nat) (hn : 0 < n) (hk : k < l.length)
    (rest : List (List Tweet)) (h : Remaining l n (k + n) rest) :
    Remaining l n k ((l.take (min (k + n) l.length)).drop k :: rest) := by
  have hlen : ((l.take (min (k + n) l.length)).drop k).length = min n (l.length - k) := by
    simp; omega
  have hnil : rest = [] ↔ l.length ≤ k + n := by
    rw [← List.length_eq_zero, h.count]
    constructor
    · intro h0
      by_contra hc
      have : n ≤ l.length - (k + n) + n - 1 := by omega
      have := Nat.div_pos this hn
      omega
    · intro hle
      apply Nat.div_eq_of_lt; omega
  refine ⟨?_, ?_, ?_, ?_, ?_⟩
  · rw [List.flatten_cons, h.flat]
    by_cases hle : l.length ≤ k + n
    · rw [Nat.min_eq_right hle, List.take_length, List.drop_eq_nil_of_le hle]; simp
    · rw [Nat.min_eq_left (by omega)]
      have := List.take_append_drop n (l.drop k)
      rw [List.drop_take, Nat.add_sub_cancel_left]
      rw [List.drop_drop] at this
      exact this
  · rw [List.length_cons, h.count]
    by_cases hle : l.length ≤ k + n
    · have h1 : l.length - (k + n) + n - 1 < n := by omega
      have h2 : l.length - k + n - 1 = (l.length - k - 1) + n := by omega
      have h3 : l.length - k - 1 < n := by omega
      rw [Nat.div_eq_of_lt h1, h2, Nat.add_div_right _ hn, Nat.div_eq_of_lt h3]
    · have h2 : l.length - k + n - 1 = (l.length - (k + n) + n - 1) + n := by omega
      rw [h2, Nat.add_div_right _ hn]
  · intro c hc
    by_cases hr : rest = []
    · subst hr; simp at hc
    · rw [List.dropLast_cons_of_ne_nil hr, List.mem_cons] at hc
      rcases hc with rfl | hc
      · rw [hlen]; have := mt hnil.2 hr; omega
      · exact h.full c hc
  · intro c hc
    rw [List.getLast?_cons] at hc
    by_cases hr : rest = []
    · subst hr
      simp at hc
      subst hc
      rw [hlen]
      have hle := hnil.1 rfl
      by_cases he : l.length - k = n
      · simp [he]
      · have hlt : l.length - k < n := by omega
        rw [Nat.mod_eq_of_lt hlt, if_neg (by omega)]; omega
    · obtain ⟨d, hd⟩ := Option.isSome_iff_exists.1 (List.getLast?_isSome.2 hr)
      rw [hd] at hc
      simp at hc
      subst hc
      have := h.last d hd
      have hgt := mt hnil.2 hr
      have hm : (l.length - k) % n = (l.length - (k + n)) % n := by
        have : l.length - k = (l.length - (k + n)) + n := by omega
        rw [this, Nat.add_mod_right]
      rw [hm]; exact this
  · intro c hc
    rw [List.mem_cons] at hc
    rcases hc with rfl | hc
    · rw [hlen]; omega
    · exact h.bounds c hc

theorem chunksLoop_closed (l : List Tweet) (n : Nat) (hn : 0 < n) :
    ∀ (fuel k : Nat) (sent : List (List Tweet)), 0 < fuel → l.length < k + fuel →
      ∃ rest, chunksLoop l (n : Int) fuel (k : Int) sent = Produced.closed (sent ++ rest) ∧
        Remaining l n k rest := by
  intro fuel
  induction fuel with
  | zero => intro k sent h; omega
  | succ fuel ih =>
    intro k sent _ h
    by_cases hk : k < l.length
    · obtain ⟨rest, hrun, hrest⟩ := ih (k + n) (sent ++ [(l.take (min (k + n) l.length)).drop k])
        (by omega) (by omega)
      refine ⟨_ :: rest, ?_, chunk_step l n k hn hk rest hrest⟩
      have hs : slice l (k : Int) (if (k : Int) + (n : Int) > (l.length : Int) then (l.length : Int)
          else (k : Int) + (n : Int)) = some ((l.take (min (k + n) l.length)).drop k) := by
        by_cases hle : l.length < k + n
        · rw [if_pos (by omega), slice_eq l k l.length (by omega) (le_refl _),
            Nat.min_eq_right (by omega)]
        · rw [if_neg (by omega)]
          have := slice_eq l k (k + n) (by omega) (by omega)
          rw [Nat.min_eq_left (by omega)]
          exact_mod_cast this
      unfold chunksLoop
      rw [if_pos (by exact_mod_cast hk)]
      simp only [hs]
      have := hrun
      rw [List.append_assoc] at this
      exact_mod_cast this
    · refine ⟨[], ?_, remaining_done l n k hn (by omega)⟩
      unfold chunksLoop
      rw [if_neg (by omega)]
      simp

theorem chunks_remaining (l : List Tweet) (K : Int) (hK : 0 < K) :
    ∃ cs, chunks l K = Produced.closed cs ∧ Remaining l K.toNat 0 cs := by
  obtain ⟨k, rfl⟩ := Int.eq_ofNat_of_zero_le (le_of_lt hK)
  have hk : 0 < k := by exact_mod_cast hK
  obtain ⟨rest, hrun, hrest⟩ := chunksLoop_closed l k hk (l.length + 1) 0 [] (by omega) (by omega)
  exact ⟨rest, by simpa [chunks] using hrun, by simpa using hrest⟩

theorem ceil_div_eq (N k : Nat) (hk : 0 < k) :
    ⌈(N : ℚ) / (k : ℚ)⌉₊ = (N + k - 1) / k := by
  have hk' : (0 : ℚ) < (k : ℚ) := by exact_mod_cast hk
  apply le_antisymm
  · rw [Nat.ceil_le, div_le_iff₀ hk']
    have h : N ≤ (N + k - 1) / k * k := by
      have h1 := Nat.div_add_mod (N + k - 1) k
      have h2 := Nat.mod_lt (N + k - 1) hk
      rw [Nat.mul_comm] at h1
      omega
    exact_mod_cast h
  · rw [Nat.div_le_iff_le_mul_add_pred hk]
    have h : (N : ℚ) ≤ (k : ℚ) * ⌈(N : ℚ) / (k : ℚ)⌉₊ := by
      have := Nat.le_ceil ((N : ℚ) / (k : ℚ))
      rw [div_le_iff₀ hk'] at this
      linarith
    have h' : N ≤ k * ⌈(N : ℚ) / (k : ℚ)⌉₊ := by exact_mod_cast h
    omega

theorem getElem?_mem_dropLast {α : Type} (cs : List α) (j : Nat) (c : α)
    (hj : j + 1 < cs.length) (hc : cs[j]? = some c) : c ∈ cs.dropLast := by
  rw [List.dropLast_eq_take]
  have : (cs.take (cs.length - 1))[j]? = some c := by
    rw [List.getElem?_take]
    rw [if_pos (by omega)]; exact hc
  exact List.getElem?_mem this

/-- C1: for a chunk size `K > 0`, `chunks l K` closes its channel after
sending exactly `⌈N / K⌉` chunks (`N = len(l)`); each chunk but the last has
`K` records, the last has `N mod K` records when that is not zero and `K`
otherwise, and an empty `l` gives no chunk. -/
theorem chunks_count_and_sizes (l : List Tweet) (K : Int) (hK : 0 < K) :
    ∃ cs, chunks l K = Produced.closed cs ∧
      cs.length = ⌈(l.length : ℚ) / (K : ℚ)⌉₊ ∧
      ((cs.length : Int) = ((l.length : Int) + K - 1) / K) ∧
      (∀ (j : Nat) (c : List Tweet), j + 1 < cs.length → cs[j]? = some c →
        (c.length : Int) = K) ∧
      (∀ c, cs.getLast? = some c →
        (c.length : Int) = if (l.length : Int) % K ≠ 0 then (l.length : Int) % K else K) ∧
      (l.length = 0 → cs = []) := by
  obtain ⟨cs, hrun, hrem⟩ := chunks_remaining l K hK
  obtain ⟨k, rfl⟩ := Int.eq_ofNat_of_zero_le (le_of_lt hK)
  have hk : 0 < k := by exact_mod_cast hK
  simp only [Int.toNat_ofNat] at hrem
  have hcount : cs.length = (l.length + k - 1) / k := by simpa using hrem.count
  refine ⟨cs, hrun, ?_, ?_, ?_, ?_, ?_⟩
  · rw [hcount]
    have := ceil_div_eq l.length k hk
    rw [← this]; simp
  · rw [hcount]
    have : ((l.length : Int) + (k : Int) - 1) = ((l.length + k - 1 : Nat) : Int) := by omega
    rw [this]; norm_cast
  · intro j c hj hc
    exact_mod_cast hrem.full c (getElem?_mem_dropLast cs j c hj hc)
  · intro c hc
    have := hrem.last c hc
    simp only [Nat.sub_zero] at this
    by_cases h0 : l.length % k = 0
    · rw [if_pos h0] at this
      rw [if_neg (by simpa using (by exact_mod_cast h0 : ((l.length : Int) % (k : Int)) = 0))]
      exact_mod_cast this
    · rw [if_neg h0] at this
      rw [if_pos (by intro h; apply h0; exact_mod_cast h)]
      exact_mod_cast this
  · intro h0
    apply List.length_eq_zero.1
    rw [hcount, h0]
    apply Nat.div_eq_of_lt; omega

theorem chunks_count_and_sizes_witness :
    (0 : Int) < 200 ∧ ∃ cs, chunks (sampleTweets 450) 200 = Produced.closed cs ∧
      cs.length = ⌈((sampleTweets 450).length : ℚ) / ((200 : Int) : ℚ)⌉₊ ∧
      ((cs.length : Int) = (((sampleTweets 450).length : Int) + 200 - 1) / 200) ∧
      (∀ (j : Nat) (c : List Tweet), j + 1 < cs.length → cs[j]? = some c →
        (c.length : Int) = 200) ∧
      (∀ c, cs.getLast? = some c →
        (c.length : Int) =
          if ((sampleTweets 450).length : Int) % 200 ≠ 0
          then ((sampleTweets 450).length : Int) % 200 else 200) ∧
      ((sampleTweets 450).length = 0 → cs = []) :=
  ⟨by decide, chunks_count_and_sizes (sampleTweets 450) 200 (by decide)⟩

/-- C2: for a chunk size `K > 0`, the chunks sent by `chunks l K`,
concatenated in the order sent, are `l`. -/
theorem chunks_flatten (l : List Tweet) (K : Int) (hK : 0 < K) :
    ∃ cs, chunks l K = Produced.closed cs ∧ cs.flatten = l := by
  obtain ⟨cs, hrun, hrem⟩ := chunks_remaining l K hK
  exact ⟨cs, hrun, by simpa using hrem.flat⟩

theorem chunks_flatten_witness :
    (0 : Int) < 200 ∧
      ∃ cs, chunks (sampleTweets 450) 200 = Produced.closed cs ∧ cs.flatten = sampleTweets 450 :=
  ⟨by decide, chunks_flatten (sampleTweets 450) 200 (by decide)⟩

/-- The example of the specification: 450 records in chunks of 200 give
chunks of 200, 200 and 50 records. -/
theorem chunks_450_by_200 :
    (match chunks (sampleTweets 450) 200 with
      | Produced.closed cs => cs.map List.length
      | _ => []) = [200, 200, 50] := by
  set_option maxRecDepth 100000 in decide

theorem chunksLoop_zero (l : List Tweet) (hl : l ≠ []) :
    ∀ (fuel : Nat) (sent : List (List Tweet)),
      chunksLoop l 0 fuel 0 sent = Produced.running (sent ++ List.replicate fuel []) := by
  have hlen : 0 < l.length := List.length_pos.2 hl
  intro fuel
  induction fuel with
  | zero => intro sent; simp [chunksLoop]
  | succ fuel ih =>
    intro sent
    have hs : slice l 0 0 = some [] := by simp [slice]
    unfold chunksLoop
    rw [if_pos (by omega)]
    simp only [Int.add_zero, if_neg (show ¬ (0 : Int) > (l.length : Int) by omega), hs]
    rw [ih, List.append_assoc]
    rfl

/-- Outside the domain of the claims, for a non-empty list: with `n = 0`
the loop never ends (it keeps sending empty chunks), and with `n < 0` the
first slice expression panics. An empty list gives no chunk for any `n`. -/
theorem chunks_outside_domain (l : List Tweet) (n : Int) :
    (l = [] → chunks l n = Produced.closed []) ∧
      (l ≠ [] → n = 0 → chunks l n = Produced.running (List.replicate (l.length + 1) [])) ∧
      (l ≠ [] → n < 0 → chunks l n = Produced.panicked []) := by
  refine ⟨?_, ?_, ?_⟩
  · intro h
    subst h
    simp [chunks, chunksLoop]
  · intro hl hn
    subst hn
    simpa [chunks] using chunksLoop_zero l hl (l.length + 1) []
  · intro hl hn
    have hlen : 0 < l.length := List.length_pos.2 hl
    have hs : slice l 0 n = none := by
      unfold slice
      rw [if_neg (by omega)]
    unfold chunks chunksLoop
    rw [if_pos (by omega)]
    simp only [Int.zero_add, if_neg (show ¬ n > (l.length : Int) by omega), hs]

/-! ## `put` -/

theorem chunks_closed (l : List Tweet) (K : Int) (hK : 0 < K) :
    ∃ cs, chunks l K = Produced.closed cs ∧ cs.flatten = l ∧
      ∀ c ∈ cs, 0 < c.length ∧ (c.length : Int) ≤ K := by
  obtain ⟨cs, hrun, hrem⟩ := chunks_remaining l K hK
  refine ⟨cs, hrun, by simpa using hrem.flat, ?_⟩
  intro c hc
  have := hrem.bounds c hc
  refine ⟨this.1, ?_⟩
  have h2 := this.2
  omega

theorem collect_eq (tmp : List Tweet) :
    collect tmp = (tmp.map (fun t => t.ID), tmp.map mkData) := by
  have h : ∀ (tmp : List Tweet) (a : List String) (b : List Data),
      tmp.foldl (fun acc t => (acc.1 ++ [t.ID], acc.2 ++ [mkData t])) (a, b) =
        (a ++ tmp.map (fun t => t.ID), b ++ tmp.map mkData) := by
    intro tmp
    induction tmp with
    | nil => intro a b; simp
    | cons t tmp ih => intro a b; simp [ih]
  simpa [collect] using h tmp [] []

theorem searchOpen_tweets : searchOpen "tweets" = Except.ok ⟨"tweets"⟩ := by rfl

theorem put_eq_putLoop {σ : Type} (env : Search σ) (s : σ) (tweets : List Tweet) :
    put env s tweets = putLoop env ⟨"tweets"⟩ (chunks tweets limit).sent s [] := by
  obtain ⟨cs, hcs, -⟩ := chunks_closed tweets limit (by decide)
  simp [put, searchOpen_tweets, hcs, Produced.sent]

theorem putLoop_cons {σ : Type} (env : Search σ) (index : Index) (c : List Tweet)
    (cs : List (List Tweet)) (s : σ) (calls : List Call) :
    putLoop env index (c :: cs) s calls =
      match (env.putMulti s index (c.map (fun t => t.ID)) (c.map mkData)).2 with
      | some err =>
        ⟨(env.putMulti s index (c.map (fun t => t.ID)) (c.map mkData)).1,
          calls ++ [callOf index c], PutOutcome.returned (some (GoError.withStack err))⟩
      | none =>
        putLoop env index cs (env.putMulti s index (c.map (fun t => t.ID)) (c.map mkData)).1
          (calls ++ [callOf index c]) := by
  simp only [putLoop, collect_eq, callOf]
  generalize env.putMulti s index (c.map (fun t => t.ID)) (c.map mkData) = r
  rcases r with ⟨s1, _ | e⟩ <;> rfl

theorem callError_zero {σ : Type} (env : Search σ) (index : Index) (s : σ) (c : List Tweet)
    (cs : List (List Tweet)) :
    callError env index s (c :: cs) 0 =
      (env.putMulti s index (c.map (fun t => t.ID)) (c.map mkData)).2 := by
  simp [callError, stateAfter]

theorem callError_succ {σ : Type} (env : Search σ) (index : Index) (s : σ) (c : List Tweet)
    (cs : List (List Tweet)) (j : Nat) :
    callError env index s (c :: cs) (j + 1) =
      callError env index (env.putMulti s index (c.map (fun t => t.ID)) (c.map mkData)).1 cs j := by
  simp [callError, stateAfter]

theorem putLoop_all_ok {σ : Type} (env : Search σ) (index : Index) :
    ∀ (cs : List (List Tweet)) (s : σ) (calls : List Call),
      (∀ j, j < cs.length → callError env index s cs j = none) →
      putLoop env index cs s calls =
        ⟨stateAfter env index s cs, calls ++ cs.map (callOf index), PutOutcome.returned none⟩ := by
  intro cs
  induction cs with
  | nil => intro s calls _; simp [putLoop, stateAfter]
  | cons c cs ih =>
    intro s calls h
    have h0 := h 0 (by simp)
    rw [callError_zero] at h0
    rw [putLoop_cons, h0]
    simp only
    rw [ih]
    · simp [stateAfter]
    · intro j hj
      have := h (j + 1) (by simpa using hj)
      rwa [callError_succ] at this

theorem putLoop_first_failure {σ : Type} (env : Search σ) (index : Index) :
    ∀ (cs : List (List Tweet)) (s : σ) (calls : List Call) (j : Nat) (e : GoError),
      callError env index s cs j = some e →
      (∀ i, i < j → callError env index s cs i = none) →
      putLoop env index cs s calls =
        ⟨stateAfter env index s (cs.take (j + 1)), calls ++ (cs.take (j + 1)).map (callOf index),
          PutOutcome.returned (some (GoError.withStack e))⟩ := by
  intro cs
  induction cs with
  | nil => intro s calls j e h _; simp [callError] at h
  | cons c cs ih =>
    intro s calls j e h hbefore
    cases j with
    | zero =>
      rw [callError_zero] at h
      rw [putLoop_cons, h]
      simp [stateAfter]
    | succ j =>
      have h0 := hbefore 0 (by omega)
      rw [callError_zero] at h0
      rw [callError_succ] at h
      rw [putLoop_cons, h0]
      simp only
      rw [ih _ _ j e h]
      · simp [stateAfter]
      · intro i hi
        have := hbefore (i + 1) (by omega)
        rwa [callError_succ] at this

theorem putLoop_calls {σ : Type} (env : Search σ) (index : Index) :
    ∀ (cs : List (List Tweet)) (s : σ) (calls : List Call),
      ∃ k, k ≤ cs.length ∧
        (putLoop env index cs s calls).calls = calls ++ (cs.take k).map (callOf index) := by
  intro cs
  induction cs with
  | nil => intro s calls; exact ⟨0, by simp, by simp [putLoop]⟩
  | cons c cs ih =>
    intro s calls
    rw [putLoop_cons]
    rcases h : (env.putMulti s index (c.map (fun t => t.ID)) (c.map mkData)).2 with _ | e <;>
      rw [h] <;> simp only
    · obtain ⟨k, hk, hcalls⟩ := ih (env.putMulti s index (c.map (fun t => t.ID)) (c.map mkData)).1
        (calls ++ [callOf index c])
      exact ⟨k + 1, by simpa using hk, by simp [hcalls]⟩
    · exact ⟨1, by simp, by simp⟩

/-- The calls `put` makes are the calls for the first `k` chunks, in order. -/
theorem put_calls {σ : Type} (env : Search σ) (s : σ) (tweets : List Tweet) :
    ∃ k, k ≤ (chunks tweets limit).sent.length ∧
      (put env s tweets).calls = ((chunks tweets limit).sent.take k).map (callOf ⟨"tweets"⟩) := by
  rw [put_eq_putLoop]
  simpa using putLoop_calls env ⟨"tweets"⟩ (chunks tweets limit).sent s []

/-- C3: `put` stops at the first failing call. If the call of `PutMulti`
for chunk `j` (counted from `0`, chunks of 200 in order) fails with `e` and
none before it fails, `put` has called `PutMulti` once for each of the chunks
`0..j`, in order, for no later chunk, and returns `e` wrapped by
`errors.WithStack`; if no call fails, it has called `PutMulti` once for each
chunk, in order, and returns nil. -/
theorem put_fail_fast {σ : Type} (env : Search σ) (s : σ) (tweets : List Tweet) :
    (∀ (j : Nat) (e : GoError), j < (chunks tweets 200).sent.length →
      callError env ⟨"tweets"⟩ s (chunks tweets 200).sent j = some e →
      (∀ i, i < j → callError env ⟨"tweets"⟩ s (chunks tweets 200).sent i = none) →
      (put env s tweets).calls = ((chunks tweets 200).sent.take (j + 1)).map (callOf ⟨"tweets"⟩) ∧
      (put env s tweets).outcome = PutOutcome.returned (some (GoError.withStack e))) ∧
    ((∀ j, j < (chunks tweets 200).sent.length →
        callError env ⟨"tweets"⟩ s (chunks tweets 200).sent j = none) →
      (put env s tweets).calls = (chunks tweets 200).sent.map (callOf ⟨"tweets"⟩) ∧
      (put env s tweets).outcome = PutOutcome.returned none) := by
  have hput := put_eq_putLoop env s tweets
  change put env s tweets = putLoop env ⟨"tweets"⟩ (chunks tweets 200).sent s [] at hput
  constructor
  · intro j e _ hfail hbefore
    rw [hput, putLoop_first_failure env ⟨"tweets"⟩ _ s [] j e hfail hbefore]
    simp
  · intro hok
    rw [hput, putLoop_all_ok env ⟨"tweets"⟩ _ s [] hok]
    simp

set_option maxRecDepth 1000000 in
theorem put_fail_fast_witness :
    (put (failingAt 1 (GoError.other "down")) 0 (sampleTweets 450)).calls =
        ((chunks (sampleTweets 450) 200).sent.take (1 + 1)).map (callOf ⟨"tweets"⟩) ∧
      (put (failingAt 1 (GoError.other "down")) 0 (sampleTweets 450)).outcome =
        PutOutcome.returned (some (GoError.withStack (GoError.other "down"))) :=
  (put_fail_fast (failingAt 1 (GoError.other "down")) 0 (sampleTweets 450)).1 1
    (GoError.other "down") (by decide) (by decide) (by decide)


theorem put_call_at {σ : Type} (env : Search σ) (s : σ) (tweets : List Tweet) (k : Nat)
    (call : Call) (hcall : (put env s tweets).calls[k]? = some call) :
    ∃ chunk, (chunks tweets limit).sent[k]? = some chunk ∧ call = callOf ⟨"tweets"⟩ chunk := by
  obtain ⟨n, -, hcalls⟩ := put_calls env s tweets
  rw [hcalls, List.getElem?_map, List.getElem?_take] at hcall
  by_cases hk : k < n
  · rw [if_pos hk] at hcall
    rcases hc : (chunks tweets limit).sent[k]? with _ | chunk
    · rw [hc] at hcall; simp at hcall
    · rw [hc] at hcall
      exact ⟨chunk, rfl, by simpa using hcall.symm⟩
  · rw [if_neg hk] at hcall; simp at hcall

theorem sent_chunk_bounds (tweets : List Tweet) (chunk : List Tweet)
    (h : chunk ∈ (chunks tweets limit).sent) :
    0 < chunk.length ∧ chunk.length ≤ 200 ∧ ∀ t ∈ chunk, t ∈ tweets := by
  obtain ⟨cs, hcs, hflat, hb⟩ := chunks_closed tweets limit (by decide)
  rw [hcs] at h
  simp only [Produced.sent] at h
  have := hb chunk h
  refine ⟨this.1, ?_, ?_⟩
  · have h2 := this.2
    simp only [limit] at h2
    omega
  · intro t ht
    rw [← hflat]
    exact List.mem_flatten.2 ⟨chunk, h, ht⟩

/-- C4: in every call `put` makes, the document at each position has as
`MediaURL` the empty string when the media URL of the record at that position
of the chunk is nil, and that URL itself otherwise. -/
theorem put_media_url {σ : Type} (env : Search σ) (s : σ) (tweets : List Tweet) (k : Nat)
    (call : Call) (hcall : (put env s tweets).calls[k]? = some call) :
    ∃ chunk, (chunks tweets 200).sent[k]? = some chunk ∧ call.srcs.length = chunk.length ∧
      ∀ (i : Nat) (t : Tweet), chunk[i]? = some t →
        ∃ d, call.srcs[i]? = some d ∧
          (t.MediaURL = none → d.MediaURL = "") ∧
          (∀ url, t.MediaURL = some url → d.MediaURL = url) := by
  obtain ⟨chunk, hchunk, rfl⟩ := put_call_at env s tweets k call hcall
  refine ⟨chunk, hchunk, by simp [callOf], ?_⟩
  intro i t ht
  refine ⟨mkData t, by simp [callOf, ht], ?_, ?_⟩
  · intro h; simp [mkData, h]
  · intro url h; simp [mkData, h]

theorem put_media_url_witness :
    (put mapSearch (fun _ => none)
        [⟨"7", ⟨1619865000, 0, UTC⟩, "user", "text", 3, none⟩]).calls[0]? =
      some ⟨⟨"tweets"⟩, ["7"], [⟨"7", ⟨1619865000, 0, UTC⟩, "user", "text", 3, ""⟩]⟩ ∧
    ∃ chunk, (chunks [⟨"7", ⟨1619865000, 0, UTC⟩, "user", "text", 3, none⟩] 200).sent[0]? =
        some chunk ∧
      (Call.mk ⟨"tweets"⟩ ["7"] [⟨"7", ⟨1619865000, 0, UTC⟩, "user", "text", 3, ""⟩]).srcs.length =
        chunk.length ∧
      ∀ (i : Nat) (t : Tweet), chunk[i]? = some t →
        ∃ d, (Call.mk ⟨"tweets"⟩ ["7"]
            [⟨"7", ⟨1619865000, 0, UTC⟩, "user", "text", 3, ""⟩]).srcs[i]? = some d ∧
          (t.MediaURL = none → d.MediaURL = "") ∧
          (∀ url, t.MediaURL = some url → d.MediaURL = url) :=
  ⟨by decide, put_media_url mapSearch (fun _ => none)
    [⟨"7", ⟨1619865000, 0, UTC⟩, "user", "text", 3, none⟩] 0
    ⟨⟨"tweets"⟩, ["7"], [⟨"7", ⟨1619865000, 0, UTC⟩, "user", "text", 3, ""⟩]⟩ (by decide)⟩

/-- C10: in every call `put` makes, keys and documents are equally many,
between 1 and 200, one per record of the chunk the call is for; at each
position the key is the `ID` of the document and is the identifier of the
record at that position, whose timestamp, author and text the document
carries unchanged. -/
theorem put_keys_parallel_to_documents {σ : Type} (env : Search σ) (s : σ)
    (tweets : List Tweet) (k : Nat) (call : Call)
    (hcall : (put env s tweets).calls[k]? = some call) :
    ∃ chunk, (chunks tweets 200).sent[k]? = some chunk ∧
      call.ids.length = call.srcs.length ∧ 1 ≤ call.ids.length ∧ call.ids.length ≤ 200 ∧
      call.ids.length = chunk.length ∧
      ∀ (i : Nat) (t : Tweet), chunk[i]? = some t →
        call.ids[i]? = some t.ID ∧
        ∃ d, call.srcs[i]? = some d ∧ d.ID = t.ID ∧ d.CreatedAt = t.CreatedAt ∧
          d.UserName = t.UserName ∧ d.Text = t.Text := by
  obtain ⟨chunk, hchunk, rfl⟩ := put_call_at env s tweets k call hcall
  have hb := sent_chunk_bounds tweets chunk (List.getElem?_mem hchunk)
  refine ⟨chunk, hchunk, by simp [callOf], by simpa [callOf] using hb.1,
    by simpa [callOf] using hb.2.1, by simp [callOf], ?_⟩
  intro i t ht
  refine ⟨by simp [callOf, ht], mkData t, by simp [callOf, ht], ?_⟩
  cases hm : t.MediaURL <;> simp [mkData, hm]

theorem put_keys_parallel_to_documents_witness :
    (put mapSearch (fun _ => none)
        [⟨"8", ⟨1619865000, 0, UTC⟩, "ann", "hello", 1, some "http://example.com/a.png"⟩,
          ⟨"9", ⟨1619865060, 0, UTC⟩, "bob", "world", 0, none⟩]).calls[0]? =
      some ⟨⟨"tweets"⟩, ["8", "9"],
        [⟨"8", ⟨1619865000, 0, UTC⟩, "ann", "hello", 1, "http://example.com/a.png"⟩,
          ⟨"9", ⟨1619865060, 0, UTC⟩, "bob", "world", 0, ""⟩]⟩ ∧
    ∃ chunk, (chunks
        [⟨"8", ⟨1619865000, 0, UTC⟩, "ann", "hello", 1, some "http://example.com/a.png"⟩,
          ⟨"9", ⟨1619865060, 0, UTC⟩, "bob", "world", 0, none⟩] 200).sent[0]? = some chunk ∧
      (Call.mk ⟨"tweets"⟩ ["8", "9"]
        [⟨"8", ⟨1619865000, 0, UTC⟩, "ann", "hello", 1, "http://example.com/a.png"⟩,
          ⟨"9", ⟨1619865060, 0, UTC⟩, "bob", "world", 0, ""⟩]).ids.length =
        (Call.mk ⟨"tweets"⟩ ["8", "9"]
        [⟨"8", ⟨1619865000, 0, UTC⟩, "ann", "hello", 1, "http://example.com/a.png"⟩,
          ⟨"9", ⟨1619865060, 0, UTC⟩, "bob", "world", 0, ""⟩]).srcs.length ∧
      1 ≤ (Call.mk ⟨"tweets"⟩ ["8", "9"]
        [⟨"8", ⟨1619865000, 0, UTC⟩, "ann", "hello", 1, "http://example.com/a.png"⟩,
          ⟨"9", ⟨1619865060, 0, UTC⟩, "bob", "world", 0, ""⟩]).ids.length ∧
      (Call.mk ⟨"tweets"⟩ ["8", "9"]
        [⟨"8", ⟨1619865000, 0, UTC⟩, "ann", "hello", 1, "http://example.com/a.png"⟩,
          ⟨"9", ⟨1619865060, 0, UTC⟩, "bob", "world", 0, ""⟩]).ids.length ≤ 200 ∧
      (Call.mk ⟨"tweets"⟩ ["8", "9"]
        [⟨"8", ⟨1619865000, 0, UTC⟩, "ann", "hello", 1, "http://example.com/a.png"⟩,
          ⟨"9", ⟨1619865060, 0, UTC⟩, "bob", "world", 0, ""⟩]).ids.length = chunk.length ∧
      ∀ (i : Nat) (t : Tweet), chunk[i]? = some t →
        (Call.mk ⟨"tweets"⟩ ["8", "9"]
          [⟨"8", ⟨1619865000, 0, UTC⟩, "ann", "hello", 1, "http://example.com/a.png"⟩,
            ⟨"9", ⟨1619865060, 0, UTC⟩, "bob", "world", 0, ""⟩]).ids[i]? = some t.ID ∧
        ∃ d, (Call.mk ⟨"tweets"⟩ ["8", "9"]
          [⟨"8", ⟨1619865000, 0, UTC⟩, "ann", "hello", 1, "http://example.com/a.png"⟩,
            ⟨"9", ⟨1619865060, 0, UTC⟩, "bob", "world", 0, ""⟩]).srcs[i]? = some d ∧
          d.ID = t.ID ∧ d.CreatedAt = t.CreatedAt ∧ d.UserName = t.UserName ∧ d.Text = t.Text :=
  ⟨by decide, put_keys_parallel_to_documents mapSearch (fun _ => none)
    [⟨"8", ⟨1619865000, 0, UTC⟩, "ann", "hello", 1, some "http://example.com/a.png"⟩,
      ⟨"9", ⟨1619865060, 0, UTC⟩, "bob", "world", 0, none⟩] 0
    ⟨⟨"tweets"⟩, ["8", "9"],
      [⟨"8", ⟨1619865000, 0, UTC⟩, "ann", "hello", 1, "http://example.com/a.png"⟩,
        ⟨"9", ⟨1619865060, 0, UTC⟩, "bob", "world", 0, ""⟩]⟩ (by decide)⟩

/-- C9, as amended: every key `put` passes to `PutMulti` is the identifier
of a record of the list, passed on as it is; so when every record of the
list has a non-empty identifier, every key is non-empty. -/
theorem put_keys_nonempty {σ : Type} (env : Search σ) (s : σ) (tweets : List Tweet)
    (call : Call) (hcall : call ∈ (put env s tweets).calls) (id : String)
    (hid : id ∈ call.ids) :
    (∃ t ∈ tweets, t.ID = id) ∧ ((∀ t ∈ tweets, t.ID ≠ "") → id ≠ "") := by
  obtain ⟨k, hk⟩ := List.getElem?_of_mem hcall
  obtain ⟨chunk, hchunk, rfl⟩ := put_call_at env s tweets k call hk
  have hb := sent_chunk_bounds tweets chunk (List.getElem?_mem hchunk)
  simp only [callOf, List.mem_map] at hid
  obtain ⟨t, ht, rfl⟩ := hid
  exact ⟨⟨t, hb.2.2 t ht, rfl⟩, fun hne => hne t (hb.2.2 t ht)⟩

theorem put_keys_nonempty_witness :
    Call.mk ⟨"tweets"⟩ ["0", "1"] ((sampleTweets 2).map mkData) ∈
        (put mapSearch (fun _ => none) (sampleTweets 2)).calls ∧
      "1" ∈ (Call.mk ⟨"tweets"⟩ ["0", "1"] ((sampleTweets 2).map mkData)).ids ∧
      (∃ t ∈ sampleTweets 2, t.ID = "1") ∧ ((∀ t ∈ sampleTweets 2, t.ID ≠ "") → "1" ≠ "") :=
  ⟨by decide, by decide,
    put_keys_nonempty mapSearch (fun _ => none) (sampleTweets 2)
      ⟨⟨"tweets"⟩, ["0", "1"], (sampleTweets 2).map mkData⟩ (by decide) "1" (by decide)⟩

/-- C9, as stated, fails: a record with the empty identifier has the empty
string passed to `PutMulti` as its key. -/
theorem put_passes_empty_identifier :
    (put mapSearch (fun _ => none)
        [⟨"", ⟨1619865000, 0, UTC⟩, "user", "text", 0, none⟩]).calls =
      [⟨⟨"tweets"⟩, [""], [⟨"", ⟨1619865000, 0, UTC⟩, "user", "text", 0, ""⟩]⟩] := by
  decide


/-- Storing the documents of the records `l` one by one. -/
theorem upsert_chunk (m : IndexMap) (c : List Tweet) :
    upsert m (c.map (fun t => t.ID)) (c.map mkData) =
      c.foldl (fun (m : IndexMap) (t : Tweet) => Function.update m t.ID (some (mkData t))) m := by
  unfold upsert
  induction c generalizing m with
  | nil => rfl
  | cons t c ih => simp only [List.map_cons, List.zip_cons_cons, List.foldl_cons]; exact ih _

theorem stateAfter_mapSearch (index : Index) (cs : List (List Tweet)) (m : IndexMap) :
    stateAfter mapSearch index m cs =
      cs.flatten.foldl (fun (m : IndexMap) (t : Tweet) => Function.update m t.ID (some (mkData t))) m := by
  unfold stateAfter
  induction cs generalizing m with
  | nil => rfl
  | cons c cs ih =>
    simp only [List.foldl_cons, List.flatten_cons, List.foldl_append]
    rw [ih]
    simp only [mapSearch, upsert_chunk]

theorem foldl_update_apply (l : List Tweet) (m : IndexMap) (id : String) :
    (l.foldl (fun (m : IndexMap) (t : Tweet) => Function.update m t.ID (some (mkData t))) m) id =
      match l.reverse.find? (fun t => t.ID == id) with
      | some t => some (mkData t)
      | none => m id := by
  induction l using List.reverseRecOn with
  | nil => rfl
  | append_singleton l t ih =>
    rw [List.foldl_append, List.reverse_append]
    simp only [List.foldl_cons, List.foldl_nil, List.reverse_cons, List.reverse_nil,
      List.nil_append, List.singleton_append, List.find?_cons]
    by_cases h : t.ID = id
    · subst h
      simp
    · have h' : (t.ID == id) = false := by simpa using h
      rw [h', Function.update_noteq (Ne.symm h)]
      exact ih

theorem put_mapSearch (tweets : List Tweet) (m : IndexMap) :
    (put mapSearch m tweets).outcome = PutOutcome.returned none ∧
      (put mapSearch m tweets).state =
        tweets.foldl (fun (m : IndexMap) (t : Tweet) => Function.update m t.ID (some (mkData t))) m := by
  obtain ⟨cs, hcs, hflat, -⟩ := chunks_closed tweets limit (by decide)
  rw [put_eq_putLoop, putLoop_all_ok mapSearch ⟨"tweets"⟩ _ m []]
  · refine ⟨rfl, ?_⟩
    simp only
    rw [stateAfter_mapSearch, hcs]
    simp only [Produced.sent, hflat]
  · intro j _
    unfold callError
    cases (chunks tweets limit).sent[j]? <;> rfl

/-- C8: with the index a map from identifier to document and a bulk upsert
that overwrites by key and succeeds, `put` returns nil; running it again on
the same records leaves the index as the first run left it; and in that
index each identifier of the list holds the document of the last record of
the list that carries it, every other key holding what it held before. -/
theorem put_twice_same_index (tweets : List Tweet) (m : IndexMap) :
    (put mapSearch m tweets).outcome = PutOutcome.returned none ∧
    (put mapSearch (put mapSearch m tweets).state tweets).outcome = PutOutcome.returned none ∧
    (put mapSearch (put mapSearch m tweets).state tweets).state = (put mapSearch m tweets).state ∧
    ∀ id, (put mapSearch m tweets).state id =
      match tweets.reverse.find? (fun t => t.ID == id) with
      | some t => some (mkData t)
      | none => m id := by
  refine ⟨(put_mapSearch tweets m).1, (put_mapSearch tweets _).1, ?_, ?_⟩
  · funext id
    rw [(put_mapSearch tweets _).2, foldl_update_apply, (put_mapSearch tweets m).2,
      foldl_update_apply]
    cases tweets.reverse.find? (fun t => t.ID == id) <;> rfl
  · intro id
    rw [(put_mapSearch tweets m).2, foldl_update_apply]

/-- `float64` of an `int` is that `int` up to `2^53` in absolute value; the
first `int` it changes is `2^53 + 1`. -/
theorem float64OfInt_exact (x : Int) (h : x.natAbs ≤ 2 ^ 53) : float64OfInt x = x := by
  have hr : List.range 12 = [0, 1, 2, 3, 4, 5, 6, 7, 8, 9, 10, 11] := by decide
  unfold float64OfInt
  rw [hr]
  by_cases hlt : x.natAbs < 2 ^ 53
  · simp only [List.find?_cons, Nat.add_zero, hlt, decide_True, Option.getD_some,
      Nat.pow_zero, Nat.div_one, Nat.mod_one, Nat.mul_zero, Nat.mul_one]
    have hno : ¬ (0 > 1 ∨ 0 = 1 ∧ x.natAbs % 2 = 1) := by omega
    rw [if_neg hno]
    split_ifs <;> omega
  · have he : x.natAbs = 2 ^ 53 := by omega
    have hx : x = 2 ^ 53 ∨ x = -(2 ^ 53) := by omega
    rcases hx with hx | hx <;> subst hx <;> decide

theorem float64OfInt_rounds :
    float64OfInt 9007199254740993 = 9007199254740992 ∧
      float64OfInt 9007199254740995 = 9007199254740996 ∧
      float64OfInt 9223372036854775807 = 9223372036854775808 := by
  decide

/-! ## Calendar -/

theorem norm_in_range (hi lo base : Int) (h0 : 0 ≤ lo) (h1 : lo < base) :
    norm hi lo base = (hi, lo) := by
  unfold norm
  simp only [if_neg (not_lt.2 h0)]
  rw [if_neg (by omega)]

theorem monthDay_table :
    ∀ leap : Bool, ∀ n : Nat, n < (if leap then 366 else 365) →
      1 ≤ (monthDay leap n).1 ∧ (monthDay leap n).1 ≤ 12 ∧
      1 ≤ (monthDay leap n).2 ∧ (monthDay leap n).2 ≤ 31 ∧
      daysBefore ((monthDay leap n).1 - 1)
        + (if leap && decide ((monthDay leap n).1 ≥ 3) then 1 else 0)
        + ((monthDay leap n).2 - 1) = n := by
  set_option maxRecDepth 1000000 in decide

theorem isLeap_iff (y : Int) :
    isLeap y = true ↔ y % 4 = 0 ∧ (y % 100 ≠ 0 ∨ y % 400 = 0) := by
  simp [isLeap]

/-- The cycle arithmetic of `absYearDay` and `daysSinceEpoch`, on named
intermediate values. -/
theorem cycles (D n1 D1 n2 m2 D2 n3 D3 n4 m4 yd y : Int)
    (h1 : n1 = D / 146097) (hD1 : D1 = D - 146097 * n1)
    (h2 : n2 = D1 / 36524) (hm2 : m2 = n2 - n2 / 4) (hD2 : D2 = D1 - 36524 * m2)
    (h3 : n3 = D2 / 1461) (hD3 : D3 = D2 - 1461 * n3)
    (h4 : n4 = D3 / 365) (hm4 : m4 = n4 - n4 / 4) (hyd : yd = D3 - 365 * m4)
    (hy : y = 400 * n1 + 100 * m2 + 4 * n3 + m4 + 1) :
    0 ≤ yd ∧ (yd < 365 ∨ (yd = 365 ∧ y % 4 = 0 ∧ (y % 100 ≠ 0 ∨ y % 400 = 0))) ∧
      (y - 1) / 400 = n1 ∧ (y - 1 - 400 * n1) / 100 = m2 ∧
      (y - 1 - 400 * n1 - 100 * m2) / 4 = n3 ∧
      146097 * n1 + 36524 * m2 + 1461 * n3 + 365 * m4 + yd = D := by
  have b1 : 0 ≤ D1 ∧ D1 < 146097 := by omega
  have b2 : n2 = 0 ∨ n2 = 1 ∨ n2 = 2 ∨ n2 = 3 ∨ n2 = 4 := by omega
  have c2 : 0 ≤ m2 ∧ m2 ≤ 3 ∧ 0 ≤ D2 ∧ (D2 < 36524 ∨ (D2 = 36524 ∧ m2 = 3)) := by
    rcases b2 with h | h | h | h | h <;> subst h <;> omega
  have b3 : 0 ≤ n3 ∧ n3 ≤ 24 ∧ 0 ≤ D3 ∧ D3 < 1461 ∧ (n3 = 24 → D3 < 1460 ∨ m2 = 3) := by omega
  have b4 : n4 = 0 ∨ n4 = 1 ∨ n4 = 2 ∨ n4 = 3 ∨ n4 = 4 := by omega
  have c4 : 0 ≤ m4 ∧ m4 ≤ 3 ∧ 0 ≤ yd ∧ (yd < 365 ∨ (yd = 365 ∧ m4 = 3 ∧ D3 = 1460)) := by
    rcases b4 with h | h | h | h | h <;> subst h <;> omega
  refine ⟨c4.2.2.1, ?_, by omega, by omega, by omega, by omega⟩
  rcases c4.2.2.2 with h | ⟨h, hm, hd⟩
  · exact Or.inl h
  · refine Or.inr ⟨h, by omega, ?_⟩
    by_cases h24 : n3 = 24
    · right
      have : m2 = 3 := by omega
      omega
    · left
      omega

theorem absYearDay_spec (D : Int) :
    0 ≤ (absYearDay D).2 ∧
      (absYearDay D).2 < (if isLeap (absYearDay D).1 then 366 else 365) ∧
      daysSinceEpoch (absYearDay D).1 + (absYearDay D).2 = D := by
  obtain ⟨c0, c1, e1, e2, e3, e4⟩ := cycles D _ _ _ _ _ _ _ _ _ (absYearDay D).2 (absYearDay D).1
    rfl rfl rfl rfl rfl rfl rfl rfl rfl rfl rfl
  refine ⟨c0, ?_, ?_⟩
  · split_ifs with h
    · omega
    · rw [isLeap_iff] at h
      rcases c1 with h' | ⟨-, h'⟩
      · exact h'
      · exact absurd h' h
  · simp only [daysSinceEpoch]
    rw [e1, e2, e3]
    simp only [absYearDay] at e4 ⊢
    omega

theorem absDate_spec (D : Int) :
    1 ≤ (absDate D).2.1 ∧ (absDate D).2.1 ≤ 12 ∧
      1 ≤ (absDate D).2.2 ∧ (absDate D).2.2 ≤ 31 ∧
      daysSinceEpoch (absDate D).1 + daysBefore ((absDate D).2.1 - 1)
        + (if isLeap (absDate D).1 && decide ((absDate D).2.1 ≥ 3) then 1 else 0)
        + ((absDate D).2.2 - 1) = D := by
  obtain ⟨h0, h1, h2⟩ := absYearDay_spec D
  have hn : (((absYearDay D).2.toNat : Nat) : Int) = (absYearDay D).2 := Int.toNat_of_nonneg h0
  have ht := monthDay_table (isLeap (absYearDay D).1) (absYearDay D).2.toNat
    (by
      cases hl : isLeap (absYearDay D).1
      · rw [hl] at h1; simp only [Bool.false_eq_true, if_false] at h1 ⊢; omega
      · rw [hl] at h1; simp only [if_true] at h1 ⊢; omega)
  rw [hn] at ht
  simp only [absDate]
  obtain ⟨t1, t2, t3, t4, t5⟩ := ht
  exact ⟨t1, t2, t3, t4, by omega⟩

theorem clock_spec (a : Int) :
    0 ≤ a % 86400 / 3600 ∧ a % 86400 / 3600 < 24 ∧
      0 ≤ (a % 86400 - a % 86400 / 3600 * 3600) / 60 ∧
      (a % 86400 - a % 86400 / 3600 * 3600) / 60 < 60 ∧
      0 ≤ a % 86400 - a % 86400 / 3600 * 3600
        - (a % 86400 - a % 86400 / 3600 * 3600) / 60 * 60 ∧
      a % 86400 - a % 86400 / 3600 * 3600
        - (a % 86400 - a % 86400 / 3600 * 3600) / 60 * 60 < 60 := by
  omega

theorem lookup_fixed (l : Location) (h : l.tx = []) (sec : Int) :
    l.lookup sec = (l.first, alpha, omega) := by
  simp [Location.lookup, h, lookupFrom]

theorem offsetAt_fixed (l : Location) (h : l.tx = []) (sec : Int) :
    l.offsetAt sec = l.first := by
  simp [Location.offsetAt, lookup_fixed l h]

/-- The zone adjustment of `Date` when the offset found at the wall-clock
seconds is also the offset at the instant it gives. -/
theorem zoneAdjust_same (loc : Location) (g off : Int) (h1 : loc.offsetAt g = off)
    (h2 : loc.offsetAt (g - off) = off) : zoneAdjust loc g = g - off := by
  unfold Location.offsetAt at h1 h2
  unfold zoneAdjust
  rcases hl : loc.lookup g with ⟨o, start, fin⟩
  rw [hl] at h1
  simp only at h1
  subst h1
  by_cases h0 : o = 0
  · simp only [h0, ne_eq, not_true_eq_false, if_false]
    omega
  · simp only [ne_eq, h0, not_false_eq_true, if_true]
    split_ifs
    · rw [h2]
    · rfl

theorem zoneAdjust_UTC (unix : Int) : zoneAdjust UTC unix = unix := by
  simp [zoneAdjust, UTC, Location.lookup, lookupFrom]

/-- `Date` on fields that need no normalisation. -/
theorem Date_in_range (year month day hour min sec nsec : Int) (loc : Location)
    (hm : 1 ≤ month ∧ month ≤ 12) (hh : 0 ≤ hour ∧ hour < 24) (hmin : 0 ≤ min ∧ min < 60)
    (hs : 0 ≤ sec ∧ sec < 60) (hns : 0 ≤ nsec ∧ nsec < 1000000000) :
    Date year month day hour min sec nsec loc =
      ⟨zoneAdjust loc ((daysSinceEpoch year + daysBefore (month - 1)
          + (if isLeap year && decide (month ≥ 3) then 1 else 0) + (day - 1)) * 86400
        + (hour * 3600 + min * 60 + sec) - unixToAbsolute), nsec, loc⟩ := by
  unfold Date
  dsimp only
  rw [norm_in_range year (month - 1) 12 (by omega) (by omega)]
  simp only
  rw [norm_in_range sec nsec 1000000000 hns.1 hns.2]
  simp only
  rw [norm_in_range min sec 60 hs.1 hs.2]
  simp only
  rw [norm_in_range hour min 60 hmin.1 hmin.2]
  simp only
  rw [norm_in_range day hour 24 hh.1 hh.2]
  simp only [Int.sub_add_cancel]
  congr 2
  split_ifs <;> ring

/-- `AddDate(0, 0, k)` moves the instant by `k` times 24 hours when the
offset of the location at the instant is also its offset at the instant
moved, and at the instant moved and shifted by that offset, where `Date`
looks it up first. -/
theorem AddDate_days (t : Time) (k : Int) (hns : 0 ≤ t.nsec ∧ t.nsec < 1000000000)
    (hguess : t.loc.offsetAt (t.unix + t.loc.offsetAt t.unix + 86400 * k) =
      t.loc.offsetAt t.unix)
    (hthen : t.loc.offsetAt (t.unix + 86400 * k) = t.loc.offsetAt t.unix) :
    t.AddDate 0 0 k = ⟨t.unix + 86400 * k, t.nsec, t.loc⟩ := by
  obtain ⟨m1, m12, d1, d31, hD⟩ := absDate_spec (t.abs / 86400)
  obtain ⟨c1, c2, c3, c4, c5, c6⟩ := clock_spec t.abs
  simp only [Time.AddDate, Time.date, Time.clock, Int.add_zero]
  rw [Date_in_range _ _ _ _ _ _ _ _ ⟨m1, m12⟩ ⟨c1, c2⟩ ⟨c3, c4⟩ ⟨c5, c6⟩ hns]
  have habs : t.abs = t.unix + t.loc.offsetAt t.unix + unixToAbsolute := rfl
  have hraw : (daysSinceEpoch (absDate (t.abs / 86400)).1
        + daysBefore ((absDate (t.abs / 86400)).2.1 - 1)
        + (if (isLeap (absDate (t.abs / 86400)).1 &&
            decide ((absDate (t.abs / 86400)).2.1 ≥ 3)) = true then (1 : Int) else 0)
        + ((absDate (t.abs / 86400)).2.2 + k - 1)) * 86400
      + (t.abs % 86400 / 3600 * 3600
        + (t.abs % 86400 - t.abs % 86400 / 3600 * 3600) / 60 * 60
        + (t.abs % 86400 - t.abs % 86400 / 3600 * 3600
          - (t.abs % 86400 - t.abs % 86400 / 3600 * 3600) / 60 * 60)) - unixToAbsolute
      = t.unix + t.loc.offsetAt t.unix + 86400 * k := by
    generalize daysSinceEpoch (absDate (t.abs / 86400)).1 = dse at hD ⊢
    generalize daysBefore ((absDate (t.abs / 86400)).2.1 - 1) = db at hD ⊢
    generalize (absDate (t.abs / 86400)).2.2 = dd at hD ⊢
    generalize (if (isLeap (absDate (t.abs / 86400)).1 &&
      decide ((absDate (t.abs / 86400)).2.1 ≥ 3)) = true then (1 : Int) else 0) = adj at hD ⊢
    generalize t.loc.offsetAt t.unix = off at habs ⊢
    simp only [unixToAbsolute] at habs ⊢
    omega
  rw [hraw, zoneAdjust_same t.loc _ (t.loc.offsetAt t.unix) hguess
    (by rw [show t.unix + t.loc.offsetAt t.unix + 86400 * k - t.loc.offsetAt t.unix
      = t.unix + 86400 * k by omega]; exact hthen)]
  congr 1
  omega

/-! ## Formatting -/

theorem digitChar_isDigit (d : Nat) : isDigitChar (digitChar d) = true := by
  have h : ∀ k : Nat, k < 10 → isDigitChar (Char.ofNat (48 + k)) = true := by decide
  exact h (d % 10) (Nat.mod_lt d (by decide))

theorem decimal_one (fuel u : Nat) (hf : 1 ≤ fuel) (hu : u < 10) :
    decimal fuel u = [digitChar u] := by
  obtain ⟨k, rfl⟩ : ∃ k, fuel = k + 1 := ⟨fuel - 1, by omega⟩
  simp [decimal, hu]

theorem decimal_step (fuel u : Nat) (hf : 1 ≤ fuel) (hu : 10 ≤ u) :
    decimal fuel u = decimal (fuel - 1) (u / 10) ++ [digitChar u] := by
  obtain ⟨k, rfl⟩ : ∃ k, fuel = k + 1 := ⟨fuel - 1, by omega⟩
  simp [decimal, Nat.not_lt.2 hu]

theorem digitChar_zero : digitChar 0 = '0' := by decide

theorem appendInt_two (x : Int) (h0 : 0 ≤ x) (h1 : x < 100) :
    appendInt x 2 = [digitChar (x.toNat / 10), digitChar x.toNat] := by
  obtain ⟨n, rfl⟩ := Int.eq_ofNat_of_zero_le h0
  have hn : n < 100 := by omega
  simp only [appendInt, Int.natAbs_ofNat, Int.toNat_ofNat]
  rw [if_neg (by omega)]
  by_cases h : n < 10
  · rw [decimal_one _ _ (by omega) h]
    have : n / 10 = 0 := by omega
    simp [this, digitChar_zero]
  · rw [decimal_step _ _ (by omega) (by omega), decimal_one _ _ (by omega) (by omega)]
    simp

theorem appendInt_four (x : Int) (h0 : 0 ≤ x) (h1 : x < 10000) :
    appendInt x 4 = [digitChar (x.toNat / 1000), digitChar (x.toNat / 100),
      digitChar (x.toNat / 10), digitChar x.toNat] := by
  obtain ⟨n, rfl⟩ := Int.eq_ofNat_of_zero_le h0
  have hn : n < 10000 := by omega
  simp only [appendInt, Int.natAbs_ofNat, Int.toNat_ofNat]
  rw [if_neg (by omega)]
  by_cases h : n < 10
  · rw [decimal_one _ _ (by omega) h]
    have e1 : n / 10 = 0 := by omega
    have e2 : n / 100 = 0 := by omega
    have e3 : n / 1000 = 0 := by omega
    simp [e1, e2, e3, digitChar_zero, List.replicate]
  · rw [decimal_step _ _ (by omega) (by omega)]
    by_cases h2 : n < 100
    · rw [decimal_one _ _ (by omega) (by omega)]
      have e2 : n / 100 = 0 := by omega
      have e3 : n / 1000 = 0 := by omega
      simp [e2, e3, digitChar_zero, List.replicate]
    · rw [decimal_step _ _ (by omega) (by omega)]
      have d2 : n / 10 / 10 = n / 100 := by omega
      by_cases h3 : n < 1000
      · rw [decimal_one _ _ (by omega) (by omega)]
        have e3 : n / 1000 = 0 := by omega
        simp [d2, e3, digitChar_zero, List.replicate]
      · rw [decimal_step _ _ (by omega) (by omega), decimal_one _ _ (by omega) (by omega)]
        have d3 : n / 100 / 10 = n / 1000 := by omega
        simp [d2, d3]

/-! ## `fetch` -/

theorem sprintf_urlTmpl (arg : List Char) :
    sprintf urlTmpl arg =
      "https://raw.githubusercontent.com/t-analyzers/t-analyzers.github.io/master/data/tweets_".toList
        ++ arg ++ ".json".toList := by
  simp [urlTmpl, sprintf]


theorem fetch_url {β : Type} (now : Time) (get : List Char → Except GoError β)
    (decode : β → Except GoError (List Tweet)) : (fetch now get decode).1 = fetchURL now := by
  unfold fetch
  dsimp only
  rcases hg : get (fetchURL now) with e | resp
  · rfl
  · rcases hd : decode resp with e | tweets <;> simp only [hd]

/-- C7, as amended: when the offset of the local zone at the clock reading
is also its offset 24 hours earlier, and 24 hours earlier shifted by that
offset (so in every zone with one fixed offset, UTC among them), the URL
`fetch` requests is the template with `%s` replaced by the `20060102` format
of the instant 24 hours before the reading; when the year of that date has
four digits, these are the eight digits of year, month and day. -/
theorem fetch_url_yesterday {β : Type} (now : Time)
    (hns : 0 ≤ now.nsec ∧ now.nsec < 1000000000)
    (hzone : now.loc.tx = [] ∨
      (now.loc.offsetAt (now.unix - 86400) = now.loc.offsetAt now.unix ∧
        now.loc.offsetAt (now.unix - 86400 + now.loc.offsetAt now.unix) =
          now.loc.offsetAt now.unix))
    (get : List Char → Except GoError β) (decode : β → Except GoError (List Tweet)) :
    (fetch now get decode).1 =
        "https://raw.githubusercontent.com/t-analyzers/t-analyzers.github.io/master/data/tweets_".toList
          ++ (Time.mk (now.unix - 86400) now.nsec now.loc).Format ++ ".json".toList ∧
      ∀ y m d : Int, (Time.mk (now.unix - 86400) now.nsec now.loc).date = (y, m, d) →
        1 ≤ m ∧ m ≤ 12 ∧ 1 ≤ d ∧ d ≤ 31 ∧
        (0 ≤ y → y ≤ 9999 →
          (Time.mk (now.unix - 86400) now.nsec now.loc).Format =
            [digitChar (y.toNat / 1000), digitChar (y.toNat / 100), digitChar (y.toNat / 10),
              digitChar y.toNat, digitChar (m.toNat / 10), digitChar m.toNat,
              digitChar (d.toNat / 10), digitChar d.toNat]) := by
  have hoff : now.loc.offsetAt (now.unix - 86400) = now.loc.offsetAt now.unix ∧
      now.loc.offsetAt (now.unix - 86400 + now.loc.offsetAt now.unix) =
        now.loc.offsetAt now.unix := by
    rcases hzone with h | h
    · simp only [offsetAt_fixed now.loc h, and_self]
    · exact h
  constructor
  · have hadd := AddDate_days now (-1) hns
      (by rw [show now.unix + now.loc.offsetAt now.unix + 86400 * (-1)
          = now.unix - 86400 + now.loc.offsetAt now.unix by omega]; exact hoff.2)
      (by rw [show now.unix + 86400 * (-1) = now.unix - 86400 by omega]; exact hoff.1)
    rw [fetch_url, fetchURL, hadd, sprintf_urlTmpl]
    rfl
  · intro y m d hdate
    obtain ⟨m1, m12, d1, d31, -⟩ :=
      absDate_spec ((Time.mk (now.unix - 86400) now.nsec now.loc).abs / 86400)
    simp only [Time.date] at hdate
    rw [hdate] at m1 m12 d1 d31
    simp only at m1 m12 d1 d31
    refine ⟨m1, m12, d1, d31, ?_⟩
    intro hy0 hy1
    simp only [Time.Format, Time.date, hdate]
    rw [appendInt_four y hy0 (by omega), appendInt_two m (by omega) (by omega),
      appendInt_two d (by omega) (by omega)]
    rfl

theorem fetch_url_yesterday_witness :
    (0 ≤ (Time.mk 1710460800 0 UTC).nsec ∧ (Time.mk 1710460800 0 UTC).nsec < 1000000000) ∧
    ((Time.mk 1710460800 0 UTC).loc.tx = [] ∨
      ((Time.mk 1710460800 0 UTC).loc.offsetAt ((Time.mk 1710460800 0 UTC).unix - 86400) =
          (Time.mk 1710460800 0 UTC).loc.offsetAt (Time.mk 1710460800 0 UTC).unix ∧
        (Time.mk 1710460800 0 UTC).loc.offsetAt ((Time.mk 1710460800 0 UTC).unix - 86400
            + (Time.mk 1710460800 0 UTC).loc.offsetAt (Time.mk 1710460800 0 UTC).unix) =
          (Time.mk 1710460800 0 UTC).loc.offsetAt (Time.mk 1710460800 0 UTC).unix)) ∧
    ((fetch (Time.mk 1710460800 0 UTC) (fun _ => Except.ok ()) (fun _ => Except.ok [])).1 =
        "https://raw.githubusercontent.com/t-analyzers/t-analyzers.github.io/master/data/tweets_".toList
          ++ (Time.mk ((Time.mk 1710460800 0 UTC).unix - 86400) (Time.mk 1710460800 0 UTC).nsec
            (Time.mk 1710460800 0 UTC).loc).Format ++ ".json".toList ∧
      ∀ y m d : Int, (Time.mk ((Time.mk 1710460800 0 UTC).unix - 86400)
            (Time.mk 1710460800 0 UTC).nsec (Time.mk 1710460800 0 UTC).loc).date = (y, m, d) →
        1 ≤ m ∧ m ≤ 12 ∧ 1 ≤ d ∧ d ≤ 31 ∧
        (0 ≤ y → y ≤ 9999 →
          (Time.mk ((Time.mk 1710460800 0 UTC).unix - 86400) (Time.mk 1710460800 0 UTC).nsec
            (Time.mk 1710460800 0 UTC).loc).Format =
            [digitChar (y.toNat / 1000), digitChar (y.toNat / 100), digitChar (y.toNat / 10),
              digitChar y.toNat, digitChar (m.toNat / 10), digitChar m.toNat,
              digitChar (d.toNat / 10), digitChar d.toNat])) :=
  ⟨by decide, Or.inl rfl,
    fetch_url_yesterday (Time.mk 1710460800 0 UTC) (by decide) (Or.inl rfl)
      (fun _ => Except.ok ()) (fun _ => Except.ok [])⟩

/-- C7, as stated, fails: run at 2024-03-11T00:30:00-04:00 in New York, the
day after the clocks went forward, `fetch` requests the file of 20240310,
while the date 24 hours before that instant, 2024-03-09T23:30:00-05:00, is
20240309. -/
theorem fetch_url_not_24_hours_before :
    (fetch (Time.mk 1710131400 0 newYork) (fun _ => Except.ok ()) (fun _ => Except.ok [])).1 =
        "https://raw.githubusercontent.com/t-analyzers/t-analyzers.github.io/master/data/tweets_20240310.json".toList ∧
      (Time.mk (1710131400 - 86400) 0 newYork).Format = "20240309".toList ∧
      Date 2024 3 11 0 30 0 0 newYork = Time.mk 1710131400 0 newYork := by
  set_option maxRecDepth 100000 in decide

/-- The example of the specification: run at 2024-03-15T00:00:00Z, `fetch`
requests the file of 20240314. -/
theorem fetchURL_2024_03_15 :
    fetchURL ⟨1710460800, 0, UTC⟩ =
      "https://raw.githubusercontent.com/t-analyzers/t-analyzers.github.io/master/data/tweets_20240314.json".toList := by
  decide

/-- Two more runs in zones whose offset changes. In Sao Paulo at
2018-11-05T00:30:00-02:00, the day after the clocks went forward at
midnight, the wall-clock time 00:30 of the day before does not exist and
`fetch` requests the file of 20181103, not of the calendar day before. In
New York at noon of 2024-03-15, away from any change, it requests the file
of 20240314. -/
theorem fetchURL_in_changing_zones :
    Date 2018 11 5 0 30 0 0 saoPaulo = Time.mk 1541385000 0 saoPaulo ∧
      fetchURL ⟨1541385000, 0, saoPaulo⟩ =
        "https://raw.githubusercontent.com/t-analyzers/t-analyzers.github.io/master/data/tweets_20181103.json".toList ∧
      Date 2024 3 15 12 0 0 0 newYork = Time.mk 1710518400 0 newYork ∧
      fetchURL ⟨1710518400, 0, newYork⟩ =
        "https://raw.githubusercontent.com/t-analyzers/t-analyzers.github.io/master/data/tweets_20240314.json".toList := by
  set_option maxRecDepth 100000 in decide

/-! ## `time.Parse` with the layout of `UnmarshalJSON` -/

theorem leadingInt_rem_nil : ∀ (s : List Char) (x : Int),
    (leadingInt s x).2 = [] → s.all isDigitChar = true := by
  intro s
  induction s with
  | nil => intro x _; rfl
  | cons c s ih =>
    intro x h
    unfold leadingInt at h
    by_cases hc : isDigitChar c = true
    · rw [if_pos hc] at h
      simp only [List.all_cons, hc, Bool.true_and]
      exact ih _ h
    · rw [if_neg hc] at h
      simp at h

theorem isDigitChar_ne {c : Char} (h : isDigitChar c = true) : c ≠ '-' ∧ c ≠ '+' := by
  constructor <;> (intro hc; subst hc; revert h; decide)

theorem atoi_digit_head (c : Char) (s : List Char) (x : Int) (hc : isDigitChar c = true)
    (h : atoi (c :: s) = some x) : s.all isDigitChar = true := by
  obtain ⟨h1, h2⟩ := isDigitChar_ne hc
  unfold atoi at h
  split at h
  · rename_i heq
    split at heq
    · rename_i e; injection e with e1 _; exact absurd e1 h1
    · rename_i e; injection e with e1 _; exact absurd e1 h2
    · injection heq with _ e2
      subst e2
      split at h
      rename_i q rem hq
      split at h
      · cases h
      · rename_i hrem
        have hr : rem = [] := by simpa using hrem
        have := leadingInt_rem_nil (c :: s) 0 (by rw [hq]; exact hr)
        simp only [List.all_cons, hc, Bool.true_and] at this
        exact this

theorem skip_char (v v1 : List Char) (p : Char) (hp : (p == ' ') = false)
    (h : skip v [p] = some v1) : v = p :: v1 := by
  unfold skip at h
  rw [hp] at h
  simp only [Bool.false_eq_true, if_false] at h
  split at h
  · rename_i c rest
    split at h
    · cases h
    · rename_i hne
      unfold skip at h
      injection h with h
      subst h
      simp at hne
      rw [hne]
  · cases h

theorem skip_space (v v1 : List Char) (h : skip v [' '] = some v1) :
    (v = [] ∧ v1 = []) ∨ (∃ r, v = ' ' :: r ∧ v1 = r.dropWhile (fun c => c == ' ')) := by
  unfold skip at h
  simp only [beq_self_eq_true, if_true] at h
  split at h
  · rename_i c rest
    split at h
    · cases h
    · rename_i hne
      unfold skip at h
      injection h with h
      have hc : c = ' ' := by simpa using hne
      subst hc
      right
      exact ⟨rest, rfl, by rw [← h]; simp [cutspace]⟩
  · unfold skip at h
    injection h with h
    exact Or.inl ⟨rfl, h.symm⟩

theorem getnum_fixed (v v1 : List Char) (n : Int) (h : getnum v true = some (n, v1)) :
    ∃ c0 c1, v = c0 :: c1 :: v1 ∧ isDigitChar c0 = true ∧ isDigitChar c1 = true ∧
      n = digitVal c0 * 10 + digitVal c1 := by
  unfold getnum at h
  split at h
  · cases h
  · rename_i c0 s1
    split at h
    · cases h
    · rename_i h0
      split at h
      · simp at h
      · rename_i c1 s2
        split at h
        · simp at h
        · rename_i h1
          injection h with h
          injection h with hn hv
          subst hv
          exact ⟨c0, c1, rfl, by simpa using h0, by simpa using h1, hn.symm⟩

theorem getnum_free (v v1 : List Char) (n : Int) (h : getnum v false = some (n, v1)) :
    (∃ c0, v = c0 :: v1 ∧ isDigitChar c0 = true ∧ n = digitVal c0 ∧
        ∀ c r, v1 = c :: r → isDigitChar c = false) ∨
      (∃ c0 c1, v = c0 :: c1 :: v1 ∧ isDigitChar c0 = true ∧ isDigitChar c1 = true ∧
        n = digitVal c0 * 10 + digitVal c1) := by
  unfold getnum at h
  split at h
  · cases h
  · rename_i c0 s1
    split at h
    · cases h
    · rename_i h0
      split at h
      · simp only [Bool.false_eq_true, if_false] at h
        injection h with h
        injection h with hn hv
        subst hv
        exact Or.inl ⟨c0, rfl, by simpa using h0, hn.symm, by intro c r hcr; cases hcr⟩
      · rename_i c1 s2
        split at h
        · rename_i h1
          simp only [Bool.false_eq_true, if_false] at h
          injection h with h
          injection h with hn hv
          subst hv
          refine Or.inl ⟨c0, rfl, by simpa using h0, hn.symm, ?_⟩
          intro c r hcr
          injection hcr with e1 _
          subst e1
          simpa using h1
        · rename_i h1
          injection h with h
          injection h with hn hv
          subst hv
          exact Or.inr ⟨c0, c1, rfl, by simpa using h0, by simpa using h1, hn.symm⟩

theorem fracSecond_all (v : List Char) (ns : Int) (h : fracSecond v = Except.ok (ns, [])) :
    fractionShape v = true := by
  unfold fracSecond at h
  split at h
  · rename_i c d rest
    split at h
    · rename_i hcd
      dsimp only at h
      split at h
      · cases h
      · injection h with h
        injection h with _ hdrop
        simp only [Bool.and_eq_true] at hcd
        simp only [fractionShape, hcd.1, hcd.2, Bool.and_self, Bool.true_and]
        have hlen := congrArg List.length hdrop
        simp only [List.length_drop, List.length_cons, List.length_nil, List.drop_succ_cons,
          List.drop_zero] at hlen
        have : rest.takeWhile isDigitChar = rest := by
          have h1 := List.takeWhile_append_dropWhile isDigitChar rest
          have h2 : (rest.dropWhile isDigitChar).length = 0 := by
            have := congrArg List.length h1
            simp only [List.length_append] at this
            omega
          rw [List.length_eq_zero.1 h2, List.append_nil] at h1
          exact h1
        rw [← this]
        rw [List.all_eq_true]
        intro x hx
        exact (List.mem_takeWhile_imp hx)
    · injection h with h
      injection h with _ hv
      cases hv
  · injection h with h
    injection h with _ hv
    subst hv
    rfl

/-- What a successful `timeParse` went through, element by element. -/
theorem timeParse_steps (s : List Char) (t : Time) (h : timeParse s = Except.ok t) :
    ∃ (year month day hour min sec nsec : Int) (v1 v2 v3 v4 v5 v6 v7 v8 v9 v10 v11 : List Char),
      4 ≤ s.length ∧ (s.head?.map isDigitChar).getD false = true ∧
      atoi (s.take 4) = some year ∧ skip (s.drop 4) ['-'] = some v1 ∧
      getnum v1 true = some (month, v2) ∧ ¬ (month ≤ 0 ∨ 12 < month) ∧
      skip v2 ['-'] = some v3 ∧ getnum v3 true = some (day, v4) ∧
      skip v4 [' '] = some v5 ∧ getnum v5 false = some (hour, v6) ∧ ¬ (hour < 0 ∨ 24 ≤ hour) ∧
      skip v6 [':'] = some v7 ∧ getnum v7 true = some (min, v8) ∧ ¬ (min < 0 ∨ 60 ≤ min) ∧
      skip v8 [':'] = some v9 ∧ getnum v9 true = some (sec, v10) ∧ ¬ (sec < 0 ∨ 60 ≤ sec) ∧
      fracSecond v10 = Except.ok (nsec, v11) ∧ v11 = [] ∧
      ¬ (day < 1 ∨ day > daysIn month year) ∧
      t = Date year month day hour min sec nsec UTC := by
  unfold timeParse at h
  split at h
  · cases h
  rename_i h0
  split at h
  · cases h
  rename_i year hyear
  dsimp only at h
  split at h
  · cases h
  rename_i v1 hv1
  split at h
  · cases h
  rename_i month v2 hv2
  split at h
  · cases h
  rename_i hmonth
  split at h
  · cases h
  rename_i v3 hv3
  split at h
  · cases h
  rename_i day v4 hv4
  split at h
  · cases h
  rename_i v5 hv5
  split at h
  · cases h
  rename_i hour v6 hv6
  split at h
  · cases h
  rename_i hhour
  split at h
  · cases h
  rename_i v7 hv7
  split at h
  · cases h
  rename_i min v8 hv8
  split at h
  · cases h
  rename_i hmin
  split at h
  · cases h
  rename_i v9 hv9
  split at h
  · cases h
  rename_i sec v10 hv10
  split at h
  · cases h
  rename_i hsec
  split at h
  · cases h
  rename_i nsec v11 hv11
  split at h
  · cases h
  rename_i hrest
  split at h
  · cases h
  rename_i hday
  injection h with h
  simp only [Bool.or_eq_true, decide_eq_true_eq, Bool.not_eq_true', Bool.not_eq_true] at h0 hmonth hhour hmin hsec hday
  refine ⟨year, month, day, hour, min, sec, nsec, v1, v2, v3, v4, v5, v6, v7, v8, v9, v10, v11,
    ?_, ?_, hyear, hv1, hv2, hmonth, hv3, hv4, hv5, hv6, hhour, hv7, hv8, hmin, hv9, hv10, hsec,
    hv11, by simpa using hrest, hday, h.symm⟩
  · omega
  · cases hh : (s.head?.map isDigitChar).getD false
    · exact absurd (Or.inr hh) h0
    · rfl


theorem timeParse_shape (s : List Char) (t : Time) (h : timeParse s = Except.ok t) :
    lenientShape s = true := by
  obtain ⟨year, month, day, hour, min, sec, nsec, v1, v2, v3, v4, v5, v6, v7, v8, v9, v10, v11,
    hlen, hhead, hyear, hv1, hv2, -, hv3, hv4, hv5, hv6, -, hv7, hv8, -, hv9, hv10, -, hv11,
    hnil, -, -⟩ := timeParse_steps s t h
  subst hnil
  -- the year
  obtain ⟨y1, y2, y3, y4, r, rfl⟩ : ∃ y1 y2 y3 y4 r, s = y1 :: y2 :: y3 :: y4 :: r := by
    match s, hlen with
    | y1 :: y2 :: y3 :: y4 :: r, _ => exact ⟨y1, y2, y3, y4, r, rfl⟩
  have hy1 : isDigitChar y1 = true := by simpa using hhead
  have hy := atoi_digit_head y1 [y2, y3, y4] year hy1 (by simpa using hyear)
  simp only [List.all_cons, List.all_nil, Bool.and_true, Bool.and_eq_true] at hy
  obtain ⟨hy2, hy3, hy4⟩ := hy
  -- the date
  have e1 := skip_char _ _ '-' (by decide) hv1
  simp only [List.drop_succ_cons, List.drop_zero] at e1
  subst e1
  obtain ⟨m1, m2, rfl, hm1, hm2, -⟩ := getnum_fixed _ _ _ hv2
  have e3 := skip_char _ _ '-' (by decide) hv3
  subst e3
  obtain ⟨d1, d2, rfl, hd1, hd2, -⟩ := getnum_fixed _ _ _ hv4
  -- the spaces
  rcases skip_space _ _ hv5 with ⟨-, rfl⟩ | ⟨r, rfl, hr⟩
  · simp [getnum] at hv6
  -- minutes and seconds
  have e7 := skip_char _ _ ':' (by decide) hv7
  subst e7
  obtain ⟨n1, n2, rfl, hn1, hn2, -⟩ := getnum_fixed _ _ _ hv8
  have e9 := skip_char _ _ ':' (by decide) hv9
  subst e9
  obtain ⟨s1, s2, rfl, hs1, hs2, -⟩ := getnum_fixed _ _ _ hv10
  have hfrac := fracSecond_all _ _ hv11
  have hY : Char.isAlpha 'Y' = true := by decide
  have hM : Char.isAlpha 'M' = true := by decide
  have hD : Char.isAlpha 'D' = true := by decide
  have hH : Char.isAlpha 'H' = true := by decide
  have hS : Char.isAlpha 'S' = true := by decide
  have hdash : Char.isAlpha '-' = false := by decide
  have hcolon : Char.isAlpha ':' = false := by decide
  have hsp : Char.isAlpha ' ' = false := by decide
  -- the hour
  rcases getnum_free _ _ _ hv6 with ⟨h1, e5, hh1, -, -⟩ | ⟨h1, h2, e5, hh1, hh2, -⟩
  · rw [hr] at e5
    simp [lenientShape, matchesLayout, e5, hy1, hy2, hy3, hy4, hm1, hm2, hd1, hd2, hh1, hn1, hn2,
      hs1, hs2, hfrac, hY, hM, hD, hH, hS, hdash, hcolon, hsp]
  · rw [hr] at e5
    simp [lenientShape, matchesLayout, e5, hy1, hy2, hy3, hy4, hm1, hm2, hd1, hd2, hh1, hh2, hn1,
      hn2, hs1, hs2, hfrac, hY, hM, hD, hH, hS, hdash, hcolon, hsp]

/-! ## `DueDate.UnmarshalJSON` -/

theorem isDigitChar_ne_space {c : Char} (h : isDigitChar c = true) : (c == ' ') = false := by
  cases hc : c == ' '
  · rfl
  · have : c = ' ' := by simpa using hc
    subst this
    revert h; decide

/-- `timeParse` on an input spelled exactly `YYYY-MM-DD HH:MM:SS`: the range
checks, then `Date` of the numbers spelled. -/
theorem timeParse_strict (y1 y2 y3 y4 m1 m2 d1 d2 h1 h2 n1 n2 s1 s2 : Char)
    (hy1 : isDigitChar y1 = true) (hy2 : isDigitChar y2 = true) (hy3 : isDigitChar y3 = true)
    (hy4 : isDigitChar y4 = true) (hm1 : isDigitChar m1 = true) (hm2 : isDigitChar m2 = true)
    (hd1 : isDigitChar d1 = true) (hd2 : isDigitChar d2 = true) (hh1 : isDigitChar h1 = true)
    (hh2 : isDigitChar h2 = true) (hn1 : isDigitChar n1 = true) (hn2 : isDigitChar n2 = true)
    (hs1 : isDigitChar s1 = true) (hs2 : isDigitChar s2 = true) :
    timeParse [y1, y2, y3, y4, '-', m1, m2, '-', d1, d2, ' ', h1, h2, ':', n1, n2, ':', s1, s2] =
      if digitVal m1 * 10 + digitVal m2 ≤ 0 ∨ 12 < digitVal m1 * 10 + digitVal m2 then
        Except.error (ParseError.outOfRange "month")
      else if digitVal h1 * 10 + digitVal h2 < 0 ∨ 24 ≤ digitVal h1 * 10 + digitVal h2 then
        Except.error (ParseError.outOfRange "hour")
      else if digitVal n1 * 10 + digitVal n2 < 0 ∨ 60 ≤ digitVal n1 * 10 + digitVal n2 then
        Except.error (ParseError.outOfRange "minute")
      else if digitVal s1 * 10 + digitVal s2 < 0 ∨ 60 ≤ digitVal s1 * 10 + digitVal s2 then
        Except.error (ParseError.outOfRange "second")
      else if digitVal d1 * 10 + digitVal d2 < 1 ∨
          digitVal d1 * 10 + digitVal d2 > daysIn (digitVal m1 * 10 + digitVal m2)
            ((((0 * 10 + digitVal y1) * 10 + digitVal y2) * 10 + digitVal y3) * 10 + digitVal y4)
          then
        Except.error ParseError.dayOutOfRange
      else
        Except.ok (Date
          ((((0 * 10 + digitVal y1) * 10 + digitVal y2) * 10 + digitVal y3) * 10 + digitVal y4)
          (digitVal m1 * 10 + digitVal m2) (digitVal d1 * 10 + digitVal d2)
          (digitVal h1 * 10 + digitVal h2) (digitVal n1 * 10 + digitVal n2)
          (digitVal s1 * 10 + digitVal s2) 0 UTC) := by
  obtain ⟨hy1a, hy1b⟩ := isDigitChar_ne hy1
  have hsp := isDigitChar_ne_space hh1
  have hatoi : atoi [y1, y2, y3, y4] =
      some ((((0 * 10 + digitVal y1) * 10 + digitVal y2) * 10 + digitVal y3) * 10 + digitVal y4) := by
    unfold atoi
    split
    rename_i neg s heq
    split at heq
    · rename_i e; injection e with e1 _; exact absurd e1 hy1a
    · rename_i e; injection e with e1 _; exact absurd e1 hy1b
    · injection heq with e1 e2
      subst e1 e2
      simp [leadingInt, hy1, hy2, hy3, hy4]
  unfold timeParse
  simp only [List.length_cons, List.length_nil, List.head?_cons, Option.map_some',
    Option.getD_some, hy1, List.take_succ_cons, List.take_zero, hatoi, List.drop_succ_cons,
    List.drop_zero]
  simp [skip, getnum, cutspace, fracSecond, hm1, hm2, hd1, hd2, hh1, hh2, hn1, hn2, hs1, hs2, hsp]

theorem digitVal_digitChar (d : Nat) : digitVal (digitChar d) = ((d % 10 : Nat) : Int) := by
  have h : ∀ k : Nat, k < 10 → digitVal (Char.ofNat (48 + k)) = (k : Int) := by decide
  exact h (d % 10) (Nat.mod_lt d (by decide))

theorem isDigitChar_ne_quote {c : Char} (h : isDigitChar c = true) :
    (c == '"') = false ∧ (c == '/') = false := by
  constructor
  · cases hc : c == '"'
    · rfl
    · have : c = '"' := by simpa using hc
      subst this; revert h; decide
  · cases hc : c == '/'
    · rfl
    · have : c = '/' := by simpa using hc
      subst this; revert h; decide

/-- A timestamp with fields in range, spelled with `/` or with `-`, decodes
to `Date` of its fields in UTC. -/
theorem UnmarshalJSON_spelled (sep : Char) (hsep : sep = '/' ∨ sep = '-')
    (year month day hour min sec : Int)
    (hy : 0 ≤ year ∧ year ≤ 9999) (hm : 1 ≤ month ∧ month ≤ 12)
    (hd : 1 ≤ day ∧ day ≤ daysIn month year) (hh : 0 ≤ hour ∧ hour < 24)
    (hmin : 0 ≤ min ∧ min < 60) (hs : 0 ≤ sec ∧ sec < 60) :
    UnmarshalJSON (spell sep year month day hour min sec) =
      Except.ok (Date year month day hour min sec 0 UTC) := by
  have hd31 : day ≤ 31 := by
    have : daysIn month year ≤ 31 := by
      have hmm : month = 1 ∨ month = 2 ∨ month = 3 ∨ month = 4 ∨ month = 5 ∨ month = 6 ∨
          month = 7 ∨ month = 8 ∨ month = 9 ∨ month = 10 ∨ month = 11 ∨ month = 12 := by omega
      unfold daysIn
      split
      · omega
      · rcases hmm with h | h | h | h | h | h | h | h | h | h | h | h <;> subst h <;> decide
    omega
  have hspell : ∀ sp : Char, spell sp year month day hour min sec =
      [digitChar (year.toNat / 1000), digitChar (year.toNat / 100), digitChar (year.toNat / 10),
        digitChar year.toNat, sp, digitChar (month.toNat / 10), digitChar month.toNat, sp,
        digitChar (day.toNat / 10), digitChar day.toNat, ' ',
        digitChar (hour.toNat / 10), digitChar hour.toNat, ':',
        digitChar (min.toNat / 10), digitChar min.toNat, ':',
        digitChar (sec.toNat / 10), digitChar sec.toNat] := by
    intro sp
    simp [spell, appendInt_four year hy.1 (by omega), appendInt_two month (by omega) (by omega),
      appendInt_two day (by omega) (by omega), appendInt_two hour hh.1 (by omega),
      appendInt_two min hmin.1 (by omega), appendInt_two sec hs.1 (by omega)]
  have q := fun d => (isDigitChar_ne_quote (digitChar_isDigit d)).1
  have sl := fun d => (isDigitChar_ne_quote (digitChar_isDigit d)).2
  have hnorm : stringsReplace (stringsTrim (spell sep year month day hour min sec) '"') '/' '-' =
      spell '-' year month day hour min sec := by
    rw [hspell, hspell]
    have q1 : ∀ d, digitChar d ≠ '"' := fun d => by simpa using q d
    have sl1 : ∀ d, digitChar d ≠ '/' := fun d => by simpa using sl d
    rcases hsep with rfl | rfl <;>
      simp [stringsTrim, stringsReplace, List.dropWhile, q, sl, q1, sl1]
  unfold UnmarshalJSON
  simp only [hnorm]
  rw [hspell, timeParse_strict _ _ _ _ _ _ _ _ _ _ _ _ _ _ (digitChar_isDigit _)
    (digitChar_isDigit _) (digitChar_isDigit _) (digitChar_isDigit _) (digitChar_isDigit _)
    (digitChar_isDigit _) (digitChar_isDigit _) (digitChar_isDigit _) (digitChar_isDigit _)
    (digitChar_isDigit _) (digitChar_isDigit _) (digitChar_isDigit _) (digitChar_isDigit _)
    (digitChar_isDigit _)]
  simp only [digitVal_digitChar]
  obtain ⟨yn, rfl⟩ := Int.eq_ofNat_of_zero_le hy.1
  obtain ⟨mn, rfl⟩ := Int.eq_ofNat_of_zero_le (show (0 : Int) ≤ month by omega)
  obtain ⟨dn, rfl⟩ := Int.eq_ofNat_of_zero_le (show (0 : Int) ≤ day by omega)
  obtain ⟨hn, rfl⟩ := Int.eq_ofNat_of_zero_le hh.1
  obtain ⟨nn, rfl⟩ := Int.eq_ofNat_of_zero_le hmin.1
  obtain ⟨sn, rfl⟩ := Int.eq_ofNat_of_zero_le hs.1
  simp only [Int.toNat_ofNat]
  have ey : ((((0 * 10 + ((yn / 1000 % 10 : Nat) : Int)) * 10 + ((yn / 100 % 10 : Nat) : Int)) * 10
      + ((yn / 10 % 10 : Nat) : Int)) * 10 + ((yn % 10 : Nat) : Int)) = (yn : Int) := by omega
  have em : ((mn / 10 % 10 : Nat) : Int) * 10 + ((mn % 10 : Nat) : Int) = (mn : Int) := by omega
  have ed : ((dn / 10 % 10 : Nat) : Int) * 10 + ((dn % 10 : Nat) : Int) = (dn : Int) := by omega
  have eh : ((hn / 10 % 10 : Nat) : Int) * 10 + ((hn % 10 : Nat) : Int) = (hn : Int) := by omega
  have en : ((nn / 10 % 10 : Nat) : Int) * 10 + ((nn % 10 : Nat) : Int) = (nn : Int) := by omega
  have es : ((sn / 10 % 10 : Nat) : Int) * 10 + ((sn % 10 : Nat) : Int) = (sn : Int) := by omega
  rw [ey, em, ed, eh, en, es]
  rw [if_neg (by omega), if_neg (by omega), if_neg (by omega), if_neg (by omega),
    if_neg (by omega)]

theorem dropWhile_quote_map (f : Char → Char) (hf : ∀ c, (f c == '"') = (c == '"'))
    (s : List Char) :
    (s.map f).dropWhile (fun x => x == '"') = (s.dropWhile (fun x => x == '"')).map f := by
  induction s with
  | nil => rfl
  | cons c s ih =>
    simp only [List.map_cons, List.dropWhile_cons, hf]
    split
    · exact ih
    · rfl

theorem stringsTrim_map (f : Char → Char) (hf : ∀ c, (f c == '"') = (c == '"'))
    (s : List Char) : stringsTrim (s.map f) '"' = (stringsTrim s '"').map f := by
  unfold stringsTrim
  rw [dropWhile_quote_map f hf, ← List.map_reverse, dropWhile_quote_map f hf, List.map_reverse]

theorem slash_to_dash_quote (c : Char) :
    ((if c = '/' then '-' else c) == '"') = (c == '"') := by
  by_cases h : c = '/'
  · subst h; decide
  · rw [if_neg h]

theorem stringsReplace_eq_map (s : List Char) :
    stringsReplace s '/' '-' = s.map (fun c => if c = '/' then '-' else c) := by
  unfold stringsReplace
  apply List.map_congr_left
  intro c _
  by_cases h : c = '/' <;> simp [h]

/-- Stripping the quotes and replacing the slashes can be done in either
order. -/
theorem normalize_comm (raw : List Char) :
    stringsReplace (stringsTrim raw '"') '/' '-' =
      stringsTrim (raw.map (fun c => if c = '/' then '-' else c)) '"' := by
  rw [stringsReplace_eq_map, stringsTrim_map _ slash_to_dash_quote]

/-- C5: `UnmarshalJSON` gives the same result, value or error, on an input
and on that input with every `/` replaced by `-`; and a timestamp with
fields in range, spelled `YYYY/MM/DD HH:MM:SS` or `YYYY-MM-DD HH:MM:SS`,
decodes in both spellings to the same instant, `Date` of its fields in UTC. -/
theorem UnmarshalJSON_slash_as_dash :
    (∀ raw : List Char,
      UnmarshalJSON raw = UnmarshalJSON (raw.map (fun c => if c = '/' then '-' else c))) ∧
    (∀ year month day hour min sec : Int,
      0 ≤ year ∧ year ≤ 9999 → 1 ≤ month ∧ month ≤ 12 → 1 ≤ day ∧ day ≤ daysIn month year →
      0 ≤ hour ∧ hour < 24 → 0 ≤ min ∧ min < 60 → 0 ≤ sec ∧ sec < 60 →
      UnmarshalJSON (spell '/' year month day hour min sec) =
          Except.ok (Date year month day hour min sec 0 UTC) ∧
        UnmarshalJSON (spell '-' year month day hour min sec) =
          Except.ok (Date year month day hour min sec 0 UTC)) := by
  constructor
  · intro raw
    have h : stringsReplace (stringsTrim (raw.map (fun c => if c = '/' then '-' else c)) '"')
        '/' '-' = stringsReplace (stringsTrim raw '"') '/' '-' := by
      rw [normalize_comm, normalize_comm, List.map_map]
      congr 2
      funext c
      by_cases h : c = '/'
      · subst h; decide
      · simp [h]
    unfold UnmarshalJSON
    simp only [h]
  · intro year month day hour min sec hy hm hd hh hmin hs
    exact ⟨UnmarshalJSON_spelled '/' (Or.inl rfl) year month day hour min sec hy hm hd hh hmin hs,
      UnmarshalJSON_spelled '-' (Or.inr rfl) year month day hour min sec hy hm hd hh hmin hs⟩

theorem UnmarshalJSON_slash_as_dash_witness :
    UnmarshalJSON (spell '/' 2021 5 1 10 30 0) = Except.ok (Date 2021 5 1 10 30 0 0 UTC) ∧
      UnmarshalJSON (spell '-' 2021 5 1 10 30 0) = Except.ok (Date 2021 5 1 10 30 0 0 UTC) :=
  UnmarshalJSON_slash_as_dash.2 2021 5 1 10 30 0 (by decide) (by decide) (by decide) (by decide)
    (by decide) (by decide)

/-- The example of the specification: both spellings of 2021-05-01 10:30:00
decode to 2021-05-01T10:30:00Z, with or without the quotes of the JSON
string. -/
theorem UnmarshalJSON_2021_05_01 :
    UnmarshalJSON "2021/05/01 10:30:00".toList = Except.ok ⟨1619865000, 0, UTC⟩ ∧
      UnmarshalJSON "2021-05-01 10:30:00".toList = Except.ok ⟨1619865000, 0, UTC⟩ ∧
      UnmarshalJSON "\"2021/05/01 10:30:00\"".toList = Except.ok ⟨1619865000, 0, UTC⟩ ∧
      spell '/' 2021 5 1 10 30 0 = "2021/05/01 10:30:00".toList ∧
      Date 2021 5 1 10 30 0 0 UTC = ⟨1619865000, 0, UTC⟩ :=
  ⟨rfl, rfl, rfl, by decide, by decide⟩

theorem matchesLayout_cons (p : Char) (pat s : List Char)
    (h : matchesLayout (p :: pat) s = true) :
    ∃ c r, s = c :: r ∧ (if p.isAlpha then isDigitChar c else p == c) = true ∧
      matchesLayout pat r = true := by
  cases s with
  | nil => simp [matchesLayout] at h
  | cons c r =>
    simp only [matchesLayout, Bool.and_eq_true] at h
    exact ⟨c, r, rfl, h.1, h.2⟩

theorem matchesLayout_nil (s : List Char) (h : matchesLayout [] s = true) : s = [] := by
  cases s with
  | nil => rfl
  | cons c r => simp [matchesLayout] at h

/-- An input spelled exactly `YYYY-MM-DD HH:MM:SS` is one of the spellings
`time.Parse` takes. -/
theorem strictShape_lenient (s : List Char) (h : strictShape s = true) :
    lenientShape s = true := by
  have hpat : "YYYY-MM-DD HH:MM:SS".toList = ['Y', 'Y', 'Y', 'Y', '-', 'M', 'M', '-', 'D', 'D',
      ' ', 'H', 'H', ':', 'M', 'M', ':', 'S', 'S'] := by decide
  unfold strictShape at h
  rw [hpat] at h
  obtain ⟨y1, r, rfl, hy1, h⟩ := matchesLayout_cons _ _ _ h
  obtain ⟨y2, r, rfl, hy2, h⟩ := matchesLayout_cons _ _ _ h
  obtain ⟨y3, r, rfl, hy3, h⟩ := matchesLayout_cons _ _ _ h
  obtain ⟨y4, r, rfl, hy4, h⟩ := matchesLayout_cons _ _ _ h
  obtain ⟨c1, r, rfl, hc1, h⟩ := matchesLayout_cons _ _ _ h
  obtain ⟨m1, r, rfl, hm1, h⟩ := matchesLayout_cons _ _ _ h
  obtain ⟨m2, r, rfl, hm2, h⟩ := matchesLayout_cons _ _ _ h
  obtain ⟨c2, r, rfl, hc2, h⟩ := matchesLayout_cons _ _ _ h
  obtain ⟨d1, r, rfl, hd1, h⟩ := matchesLayout_cons _ _ _ h
  obtain ⟨d2, r, rfl, hd2, h⟩ := matchesLayout_cons _ _ _ h
  obtain ⟨c3, r, rfl, hc3, h⟩ := matchesLayout_cons _ _ _ h
  obtain ⟨h1, r, rfl, hh1, h⟩ := matchesLayout_cons _ _ _ h
  obtain ⟨h2, r, rfl, hh2, h⟩ := matchesLayout_cons _ _ _ h
  obtain ⟨c4, r, rfl, hc4, h⟩ := matchesLayout_cons _ _ _ h
  obtain ⟨n1, r, rfl, hn1, h⟩ := matchesLayout_cons _ _ _ h
  obtain ⟨n2, r, rfl, hn2, h⟩ := matchesLayout_cons _ _ _ h
  obtain ⟨c5, r, rfl, hc5, h⟩ := matchesLayout_cons _ _ _ h
  obtain ⟨s1, r, rfl, hs1, h⟩ := matchesLayout_cons _ _ _ h
  obtain ⟨s2, r, rfl, hs2, h⟩ := matchesLayout_cons _ _ _ h
  have hr := matchesLayout_nil _ h
  subst hr
  have hY : Char.isAlpha 'Y' = true := by decide
  have hM : Char.isAlpha 'M' = true := by decide
  have hD : Char.isAlpha 'D' = true := by decide
  have hH : Char.isAlpha 'H' = true := by decide
  have hS : Char.isAlpha 'S' = true := by decide
  have hdash : Char.isAlpha '-' = false := by decide
  have hcolon : Char.isAlpha ':' = false := by decide
  have hsp : Char.isAlpha ' ' = false := by decide
  simp only [hY, hM, hD, hH, hS, hdash, hcolon, hsp, if_true, Bool.false_eq_true, if_false,
    beq_iff_eq] at hy1 hy2 hy3 hy4 hc1 hm1 hm2 hc2 hd1 hd2 hc3 hh1 hh2 hc4 hn1 hn2 hc5 hs1 hs2
  subst hc1 hc2 hc3 hc4 hc5
  have hsp1 := isDigitChar_ne_space hh1
  simp [lenientShape, matchesLayout, fractionShape, hy1, hy2, hy3, hy4, hm1, hm2, hd1, hd2, hh1,
    hh2, hn1, hn2, hs1, hs2, hY, hM, hD, hH, hS, hdash, hcolon, hsp, hsp1, List.dropWhile]

/-- C6, as amended: `UnmarshalJSON` fails, with the parse failure wrapped by
`errors.WithStack`, on every input that after replacing `/` by `-` and
stripping the quotes is not spelled `YYYY-MM-DD`, one or more spaces, the
hour in one or two digits, `:MM:SS`, and possibly a fraction of a second;
it succeeds only on inputs so spelled, of which the inputs spelled exactly
`YYYY-MM-DD HH:MM:SS` are part; and every error it returns is the error of
`time.Parse` on the normalised input, wrapped. -/
theorem UnmarshalJSON_layout (raw : List Char) :
    (lenientShape (stringsTrim (raw.map (fun c => if c = '/' then '-' else c)) '"') = false →
      ∃ e, UnmarshalJSON raw = Except.error (GoError.withStack (GoError.parse e))) ∧
    (∀ t, UnmarshalJSON raw = Except.ok t →
      lenientShape (stringsTrim (raw.map (fun c => if c = '/' then '-' else c)) '"') = true) ∧
    (strictShape (stringsTrim (raw.map (fun c => if c = '/' then '-' else c)) '"') = true →
      lenientShape (stringsTrim (raw.map (fun c => if c = '/' then '-' else c)) '"') = true) ∧
    (∀ err, UnmarshalJSON raw = Except.error err →
      ∃ e, timeParse (stringsTrim (raw.map (fun c => if c = '/' then '-' else c)) '"') =
          Except.error e ∧ err = GoError.withStack (GoError.parse e)) := by
  have hdef : UnmarshalJSON raw =
      match timeParse (stringsTrim (raw.map (fun c => if c = '/' then '-' else c)) '"') with
      | Except.error err => Except.error (GoError.withStack (GoError.parse err))
      | Except.ok t => Except.ok t := by
    unfold UnmarshalJSON
    simp only [normalize_comm]
  rcases hp : timeParse (stringsTrim (raw.map (fun c => if c = '/' then '-' else c)) '"')
    with e | t
  · rw [hp] at hdef
    refine ⟨fun _ => ⟨e, hdef⟩, ?_, strictShape_lenient _, ?_⟩
    · intro t ht
      rw [hdef] at ht
      cases ht
    · intro err herr
      rw [hdef] at herr
      injection herr with herr
      exact ⟨e, rfl, herr.symm⟩
  · rw [hp] at hdef
    have hshape := timeParse_shape _ t hp
    refine ⟨?_, fun _ _ => hshape, strictShape_lenient _, ?_⟩
    · intro hfalse
      rw [hshape] at hfalse
      cases hfalse
    · intro err herr
      rw [hdef] at herr
      cases herr

theorem UnmarshalJSON_layout_witness :
    ∃ e, UnmarshalJSON "not-a-date".toList = Except.error (GoError.withStack (GoError.parse e)) :=
  (UnmarshalJSON_layout "not-a-date".toList).1 (by decide)

/-- C6, as stated, fails: an input with a one-digit hour, which is not
spelled `YYYY-MM-DD HH:MM:SS`, is decoded. -/
theorem UnmarshalJSON_accepts_short_hour :
    strictShape (stringsTrim ("2021-05-01 9:30:00".toList.map
        (fun c => if c = '/' then '-' else c)) '"') = false ∧
      UnmarshalJSON "2021-05-01 9:30:00".toList = Except.ok ⟨1619861400, 0, UTC⟩ :=
  ⟨by decide, rfl⟩

/-- Two more spellings off the layout that are decoded: several spaces
between date and time, and a fraction of a second. -/
theorem UnmarshalJSON_accepts_spaces_and_fraction :
    strictShape "2021-05-01   10:30:00".toList = false ∧
      UnmarshalJSON "2021-05-01   10:30:00".toList = Except.ok ⟨1619865000, 0, UTC⟩ ∧
      strictShape "2021-05-01 10:30:00.5".toList = false ∧
      UnmarshalJSON "2021-05-01 10:30:00.5".toList = Except.ok ⟨1619865000, 500000000, UTC⟩ :=
  ⟨by decide, rfl, by decide, rfl⟩

/-- The example of the specification: `not-a-date` is rejected. -/
theorem UnmarshalJSON_not_a_date :
    UnmarshalJSON "not-a-date".toList =
      Except.error (GoError.withStack (GoError.parse (ParseError.bad "2006"))) :=
  rfl

end Batch
